import Mathlib

/-!
# Verification of the pr-dependencies-action reference extractor and reconciler

A shallow embedding of the core logic of the `pr-dependencies-action`
repository (`src/tag-extractor.ts`, `src/DependencyChecker.ts`,
`src/IssueUpdater.ts`) and proofs about it.

Strings are modelled as lists of characters (`Str`).  JavaScript regular
expressions used by the source are modelled by hand-rolled matchers with
JavaScript `matchAll` scanning semantics: at each position (left to right)
the pattern is attempted; on success the match is emitted and scanning
resumes after the matched text, otherwise scanning advances one character.
All patterns of the source match at least one character, so the zero-width
special case of `matchAll` never arises.
-/

namespace PRDeps

/-- Strings as character lists. -/
abbrev Str := List Char

/-- Membership of a character in the JavaScript `\s` class (and the set
removed by `String.prototype.trim`). -/
def jsSpace (c : Char) : Bool :=
  c == ' ' || c == '\t' || c == '\n' || c == '\r' ||
  c.toNat == 0x0b || c.toNat == 0x0c ||
  c.toNat == 0xa0 || c.toNat == 0x1680 ||
  (0x2000 ≤ c.toNat && c.toNat ≤ 0x200a) ||
  c.toNat == 0x2028 || c.toNat == 0x2029 || c.toNat == 0x202f ||
  c.toNat == 0x205f || c.toNat == 0x3000 || c.toNat == 0xfeff

/-- Membership in the JavaScript `\w` class: `[A-Za-z0-9_]`. -/
def isWordChar (c : Char) : Bool :=
  c.isAlphanum || c == '_'

/-- Membership in the character class `[\w.-]` used for owner/repo segments. -/
def isRefChar (c : Char) : Bool :=
  isWordChar c || c == '.' || c == '-'

/-- The lookbehind `(?<=^|\s|\()` shared by all four reference patterns:
the position is at the start of the string (`none`), or is preceded by a
whitespace character or an opening parenthesis. -/
def lookbehindOk : Option Char → Bool
  | none => true
  | some c => jsSpace c || c == '('

/-- The lookahead `(?=\b)` placed after a greedy `(\d+)`: since digits are
word characters, the word boundary holds exactly when the next character is
absent or is not a word character (backtracking into the digit run can
never create a boundary between two digits). -/
def boundaryOk : Str → Bool
  | [] => true
  | c :: _ => !isWordChar c

/-- `parseInt(s, 10)` on a string of decimal digits. -/
def digitsVal (ds : Str) : Nat :=
  ds.foldl (fun a c => 10 * a + (c.toNat - 48)) 0

/-- Decimal digits of `n`, most significant first (the characters produced
by a JavaScript template literal `${n}` for a non-negative integer).
Fuel-based so that it reduces definitionally. -/
def natCharsAux : Nat → Nat → Str → Str
  | 0, _, acc => acc
  | fuel + 1, n, acc =>
    let d := Char.ofNat (48 + n % 10)
    if n < 10 then d :: acc else natCharsAux fuel (n / 10) (d :: acc)

/-- Decimal representation of `n` as characters. -/
def natChars (n : Nat) : Str := natCharsAux (n + 1) n []

/-!
## The generic scanner: `String.prototype.matchAll` semantics

A matcher `m prev s` attempts its pattern at the position whose remaining
input is `s` and whose preceding character is `prev` (`none` at the start
of the string).  On success it returns the payload extracted from the
match, the last character the match consumed, and the remaining input
after the match.  Every matcher consumes at least one character.
-/

/-- One `matchAll` pass with explicit fuel (an upper bound on the number of
scanning steps; `s.length` always suffices). -/
def genScanAux (m : Option Char → Str → Option (α × Char × Str)) :
    Nat → Option Char → Str → List α
  | 0, _, _ => []
  | _ + 1, _, [] => []
  | fuel + 1, prev, c :: t =>
    match m prev (c :: t) with
    | some (a, lc, rest) => a :: genScanAux m fuel (some lc) rest
    | none => genScanAux m fuel (some c) t

/-- Scan `s` from a position with preceding character `prev`. -/
def genScanFrom (m : Option Char → Str → Option (α × Char × Str))
    (prev : Option Char) (s : Str) : List α :=
  genScanAux m s.length prev s

/-- All matches of `m` over `s`, in order, non-overlapping, leftmost-first. -/
def genScan (m : Option Char → Str → Option (α × Char × Str)) (s : Str) : List α :=
  genScanFrom m none s

/-!
## The four dependency reference patterns (`getRegexPatterns`)

From `src/tag-extractor.ts`:

* `intraRepo`: `(?<=^|\s|\()#(\d+)(?=\b)`
* `crossRepo`: `(?<=^|\s|\()([\w.-]+)\/([\w.-]+)#(\d+)(?=\b)`
* `path`:      `(?<=^|\s|\()([\w.-]+)\/([\w.-]+)\/(issues|pull)\/(\d+)(?=\b)`
* `url`:       `(?<=^|\s|\()https?:\/\/HOST\/([\w.-]+)\/([\w.-]+)\/(issues|pull)\/(\d+)(?=\b)`

where `HOST` is the hostname of the configured server origin, interpolated
verbatim (so a `.` in it is the regex wildcard).  The character classes
`[\w.-]` and `\d` exclude `/`, `#` and `)`;  all quantified sub-patterns
are therefore deterministic: greedy maximal munch followed by the literal
check is exactly the backtracking semantics.
-/

/-- The `intraRepo` pattern `(?<=^|\s|\()#(\d+)(?=\b)`; the payload is the
captured number. -/
def matchIntra (prev : Option Char) (s : Str) : Option (Nat × Char × Str) :=
  if lookbehindOk prev then
    match s with
    | '#' :: t =>
      let ds := t.takeWhile Char.isDigit
      let rest := t.dropWhile Char.isDigit
      if !ds.isEmpty && boundaryOk rest then
        some (digitsVal ds, ds.getLastD '#', rest)
      else none
    | _ => none
  else none

/-- The `crossRepo` pattern `(?<=^|\s|\()([\w.-]+)\/([\w.-]+)#(\d+)(?=\b)`;
the payload is (owner, repo, number). -/
def matchCross (prev : Option Char) (s : Str) :
    Option ((Str × Str × Nat) × Char × Str) :=
  if lookbehindOk prev then
    let g1 := s.takeWhile isRefChar
    match s.dropWhile isRefChar with
    | '/' :: r2 =>
      let g2 := r2.takeWhile isRefChar
      match r2.dropWhile isRefChar with
      | '#' :: r3 =>
        let ds := r3.takeWhile Char.isDigit
        let rest := r3.dropWhile Char.isDigit
        if !g1.isEmpty && !g2.isEmpty && !ds.isEmpty && boundaryOk rest then
          some ((g1, g2, digitsVal ds), ds.getLastD '#', rest)
        else none
      | _ => none
    | _ => none
  else none

/-- The alternation `(issues|pull)` (the interpolation of `getIssueTypes()`),
left branch first; the branches start with distinct characters, so the
first-match rule is deterministic. -/
def matchIssueTypes (s : Str) : Option Str :=
  if List.isPrefixOf ("issues").data s then some (s.drop 6)
  else if List.isPrefixOf ("pull").data s then some (s.drop 4)
  else none

/-- The `path` pattern
`(?<=^|\s|\()([\w.-]+)\/([\w.-]+)\/(issues|pull)\/(\d+)(?=\b)`;
the payload is (owner, repo, number) — capture 3 (the type) is unused by
the handler. -/
def matchPath (prev : Option Char) (s : Str) :
    Option ((Str × Str × Nat) × Char × Str) :=
  if lookbehindOk prev then
    let g1 := s.takeWhile isRefChar
    match s.dropWhile isRefChar with
    | '/' :: r2 =>
      let g2 := r2.takeWhile isRefChar
      match r2.dropWhile isRefChar with
      | '/' :: r3 =>
        match matchIssueTypes r3 with
        | some r4 =>
          match r4 with
          | '/' :: r5 =>
            let ds := r5.takeWhile Char.isDigit
            let rest := r5.dropWhile Char.isDigit
            if !g1.isEmpty && !g2.isEmpty && !ds.isEmpty && boundaryOk rest then
              some ((g1, g2, digitsVal ds), ds.getLastD '#', rest)
            else none
          | _ => none
        | none => none
      | _ => none
    | _ => none
  else none

/-- Matching of the interpolated hostname: each of its characters is a
regex literal except `.`, which is the regex wildcard (any character other
than a newline). -/
def matchHostChars (pat s : Str) : Option Str :=
  match pat, s with
  | [], rest => some rest
  | p :: ps, c :: cs =>
    if (if p == '.' then c != '\n' else p == c) then matchHostChars ps cs else none
  | _ :: _, [] => none

/-- The `url` pattern
`(?<=^|\s|\()https?:\/\/HOST\/([\w.-]+)\/([\w.-]+)\/(issues|pull)\/(\d+)(?=\b)`;
the payload is (owner, repo, number). -/
def matchUrl (host : Str) (prev : Option Char) (s : Str) :
    Option ((Str × Str × Nat) × Char × Str) :=
  if lookbehindOk prev then
    match s with
    | 'h' :: 't' :: 't' :: 'p' :: r0 =>
      let r1 := if r0.head? == some 's' then r0.tail else r0
      match r1 with
      | ':' :: '/' :: '/' :: r2 =>
        match matchHostChars host r2 with
        | some ('/' :: r3) =>
          let g1 := r3.takeWhile isRefChar
          match r3.dropWhile isRefChar with
          | '/' :: r4 =>
            let g2 := r4.takeWhile isRefChar
            match r4.dropWhile isRefChar with
            | '/' :: r5 =>
              match matchIssueTypes r5 with
              | some ('/' :: r6) =>
                let ds := r6.takeWhile Char.isDigit
                let rest := r6.dropWhile Char.isDigit
                if !g1.isEmpty && !g2.isEmpty && !ds.isEmpty && boundaryOk rest then
                  some ((g1, g2, digitsVal ds), ds.getLastD '#', rest)
                else none
              | _ => none
            | _ => none
          | _ => none
        | _ => none
      | _ => none
    | _ => none
  else none

/-!
## The declaration block (`extractDependencyBlock`)
-/

/-- `String.prototype.split('\n')`. -/
def splitNl : Str → List Str
  | [] => [[]]
  | c :: t =>
    if c == '\n' then [] :: splitNl t
    else
      match splitNl t with
      | [] => [[c]]
      | h :: r => (c :: h) :: r

/-- `String.prototype.trim()`. -/
def trimChars (s : Str) : Str :=
  ((s.dropWhile jsSpace).reverse.dropWhile jsSpace).reverse

/-- Case-insensitive prefix test (the `i` flag compares characters after
case folding; `Char.toLower` models this for the ASCII letters involved). -/
def ciStartsWith : Str → Str → Bool
  | [], _ => true
  | _ :: _, [] => false
  | p :: ps, c :: cs => (p.toLower == c.toLower) && ciStartsWith ps cs

/-- The test of `keyPhraseRegex = new RegExp('^(?:' + phrases + '):', 'i')`
against a (trimmed) line.  The configured pipe-delimited, regex-escaped
phrase list is modelled as the list of its literal alternation branches. -/
def isKeyPhraseLine (kp : List Str) (line : Str) : Bool :=
  kp.any (fun p => ciStartsWith (p ++ [':']) line)

/-- The line loop of `extractDependencyBlock`: a blank (empty after
trimming) line resets the in-block flag, a key-phrase line sets it, and
every trimmed line seen while the flag is set is appended followed by a
newline. -/
def extractBlockLines (kp : List Str) : List Str → Bool → Str → Str
  | [], _, acc => acc
  | l :: ls, inside, acc =>
    let t := trimChars l
    if t.isEmpty then extractBlockLines kp ls false acc
    else
      let inside2 := if isKeyPhraseLine kp t then true else inside
      extractBlockLines kp ls inside2 (if inside2 then acc ++ t ++ ['\n'] else acc)

/-- `extractDependencyBlock` from `src/tag-extractor.ts`. -/
def extractDependencyBlock (kp : List Str) (commentBody : Str) : Str :=
  if commentBody.isEmpty then [] else extractBlockLines kp (splitNl commentBody) false []

/-!
## Tags, deduplication (`new Map(...)`), and `getDependencyTags`
-/

/-- An extracted entity reference (the `DependencyTag` interface). -/
structure DependencyTag where
  owner : Str
  repo : Str
  issue_number : Nat
deriving DecidableEq

/-- The repository of the execution context (`github.context.repo`). -/
structure RepoRef where
  owner : Str
  repo : Str
deriving DecidableEq

/-- The deduplication key `owner/repo#number`. -/
def tagKey (t : DependencyTag) : Str :=
  t.owner ++ ['/'] ++ t.repo ++ ['#'] ++ natChars t.issue_number

/-- Insertion into a JavaScript `Map` (ordered by first insertion of a key;
a later insertion of the same key overwrites the value in place). -/
def mapInsert (m : List (Str × DependencyTag)) (k : Str) (v : DependencyTag) :
    List (Str × DependencyTag) :=
  if m.any (fun p => p.1 == k) then
    m.map (fun p => if p.1 == k then (p.1, v) else p)
  else m ++ [(k, v)]

/-- `[...new Map(tags.map(tag => [key(tag), tag])).values()]`. -/
def dedupTags (tags : List DependencyTag) : List DependencyTag :=
  (tags.foldl (fun m t => mapInsert m (tagKey t) t) []).map (fun p => p.2)

/-- `getDependencyTags` from `src/tag-extractor.ts`: extract the
declaration block, run the four patterns over it in order (`intraRepo`,
`crossRepo`, `path`, `url` — the insertion order of `getRegexPatterns`),
convert the matches with their handlers (the intra-repo handler uses the
execution context's repository), and deduplicate. -/
def getDependencyTags (ctx : RepoRef) (host : Str) (kp : List Str)
    (commentBody : Str) : List DependencyTag :=
  let block := extractDependencyBlock kp commentBody
  let intraTags := (genScan matchIntra block).map
    (fun n => DependencyTag.mk ctx.owner ctx.repo n)
  let crossTags := (genScan matchCross block).map
    (fun g => DependencyTag.mk g.1 g.2.1 g.2.2)
  let pathTags := (genScan matchPath block).map
    (fun g => DependencyTag.mk g.1 g.2.1 g.2.2)
  let urlTags := (genScan (matchUrl host) block).map
    (fun g => DependencyTag.mk g.1 g.2.1 g.2.2)
  dedupTags (intraTags ++ crossTags ++ pathTags ++ urlTags)

/-!
## The dependents grammar (`getDependentsTags`)
-/

/-- The literal part of `/the following dependents:\n([\s\S]*?)(?=\n---\n|$)/i`. -/
def dependentsPhrase : Str := "the following dependents:\n".data

/-- The section delimiter of the lookahead alternation. -/
def sepLit : Str := "\n---\n".data

/-- Length of the shortest (lazy `[\s\S]*?`) content whose continuation
satisfies the lookahead `(?=\n---\n|$)`: the distance to the first
occurrence of the delimiter, or the whole remaining length. -/
def sepScanLen : Str → Nat
  | [] => 0
  | c :: t => if List.isPrefixOf sepLit (c :: t) then 0 else 1 + sepScanLen t

/-- `commentBody.match(...)?.[0] ?? ''`: the full text of the leftmost
match of the block pattern, or empty. -/
def findBlockAux : Str → Option Str
  | [] => none
  | c :: t =>
    if ciStartsWith dependentsPhrase (c :: t) then
      some ((c :: t).take
        (dependentsPhrase.length + sepScanLen ((c :: t).drop dependentsPhrase.length)))
    else findBlockAux t

/-- The dependents block of a comment body (empty when the pattern does
not match). -/
def findDependentsBlock (s : Str) : Str := (findBlockAux s).getD []

/-- The alternation `(?:PR|Issue)`, left branch first (disjoint first
characters make it deterministic). -/
def matchBulletTag (s : Str) : Option Str :=
  if List.isPrefixOf ("PR").data s then some (s.drop 2)
  else if List.isPrefixOf ("Issue").data s then some (s.drop 5)
  else none

/-!
The bullet pattern `- \[(?:PR|Issue) #(\d+)]\([^)]+\/(\d+)\)` of
`getDependentsTags`, split into its sequential sub-patterns; the payload
is the digit run of capture 1 (the displayed number — capture 2, the
trailing number of the URL, is unused by the handler).
-/

/-- The maximal trailing digit run of a string. -/
def tailDigits (u : Str) : Str := (u.reverse.takeWhile Char.isDigit).reverse

/-- The tail `\/(\d+)\)` matched by backtracking against the greedy
`[^)]+`: with `urlr` the maximal run of non-`)` characters, the match
succeeds exactly when `urlr` ends in `/` followed by a non-empty digit run
and has at least one character before that `/`. -/
def bulletCheck (ds urlr s5 : Str) : Option (Str × Char × Str) :=
  if !ds.isEmpty && !(tailDigits urlr).isEmpty &&
      ((urlr.take (urlr.length - (tailDigits urlr).length)).getLastD ' ' == '/') &&
      (2 ≤ urlr.length - (tailDigits urlr).length) then
    some (ds, ')', s5)
  else none

/-- `\([^)]+\/(\d+)\)` after the opening parenthesis: the greedy `[^)]+`
runs to the first `)`. -/
def bulletUrl (ds s4 : Str) : Option (Str × Char × Str) :=
  match s4.dropWhile (fun c => c != ')') with
  | c :: s5 => if c == ')' then bulletCheck ds (s4.takeWhile (fun c => c != ')')) s5 else none
  | _ => none

/-- `(\d+)]\(...`: the greedy digit capture, the closing bracket and the
opening parenthesis. -/
def bulletNum (s3 : Str) : Option (Str × Char × Str) :=
  match s3.dropWhile Char.isDigit with
  | c0 :: c1 :: s4 =>
    if c0 == ']' && c1 == '(' then bulletUrl (s3.takeWhile Char.isDigit) s4 else none
  | _ => none

/-- ` #(\d+)...` after the type tag. -/
def bulletTagged (s2 : Str) : Option (Str × Char × Str) :=
  match s2 with
  | c0 :: c1 :: s3 => if c0 == ' ' && c1 == '#' then bulletNum s3 else none
  | _ => none

/-- The full bullet pattern (it has no lookbehind, so the preceding
character is ignored). -/
def matchBullet (_prev : Option Char) (s : Str) : Option (Str × Char × Str) :=
  match s with
  | c0 :: c1 :: c2 :: s1 =>
    if c0 == '-' && c1 == ' ' && c2 == '[' then
      match matchBulletTag s1 with
      | some s2 => bulletTagged s2
      | none => none
    else none
  | _ => none

/-- `getDependentsTags` from `src/tag-extractor.ts`: locate the dependents
block, collect the bullet matches (each resolved against the execution
context's repository), and deduplicate. -/
def getDependentsTags (ctx : RepoRef) (commentBody : Str) : List DependencyTag :=
  let block := findDependentsBlock commentBody
  let tags := (genScan matchBullet block).map
    (fun ds => DependencyTag.mk ctx.owner ctx.repo (digitsVal ds))
  dedupTags tags

/-!
## Entities, fetching, and the resolver loops (`DependencyChecker`)
-/

/-- The fields of a fetched issue / pull request used by the core logic
(`octokit.rest.issues.get` response data).  `pull_request` records the
presence of the `pull_request` key (the `isPullRequest` type guard). -/
structure IssueData where
  number : Nat
  title : Str
  html_url : Str
  state : Str
  pull_request : Bool
deriving DecidableEq

/-- The `isPullRequest` type guard from `src/types.ts`. -/
def isPullRequest (issue : IssueData) : Bool := issue.pull_request

/-- A fetch oracle: `octokit.rest.issues.get` keyed by a tag, `none` when
the request throws (translated to a `CheckerError` by `fetchIssue`). -/
abbrev Fetch := DependencyTag → Option IssueData

/-- The loop of `DependencyChecker.getDependencies` over the extracted
tags: a failed fetch logs a warning (recorded here as the tag's number)
and continues with the remaining tags; a fetched entity is kept exactly
when its state is not `closed`.  Returns (dependencies, warned numbers). -/
def getDependenciesFrom (fetch : Fetch) : List DependencyTag → List IssueData × List Nat
  | [] => ([], [])
  | tag :: tags =>
    let r := getDependenciesFrom fetch tags
    match fetch tag with
    | some dependency =>
      (if dependency.state != ("closed").data then dependency :: r.1 else r.1, r.2)
    | none => (r.1, tag.issue_number :: r.2)

/-- `DependencyChecker.getDependencies`: extract the dependency tags of a
body, then fetch and filter them. -/
def getDependencies (fetch : Fetch) (ctx : RepoRef) (host : Str) (kp : List Str)
    (commentBody : Str) : List IssueData × List Nat :=
  getDependenciesFrom fetch (getDependencyTags ctx host kp commentBody)

/-- The loop of `DependencyChecker.getDependents` (same shape as the
dependency loop, over the dependents tags). -/
def getDependentsFrom (fetch : Fetch) : List DependencyTag → List IssueData × List Nat
  | [] => ([], [])
  | tag :: tags =>
    let r := getDependentsFrom fetch tags
    match fetch tag with
    | some dependent =>
      (if dependent.state != ("closed").data then dependent :: r.1 else r.1, r.2)
    | none => (r.1, tag.issue_number :: r.2)

/-- `DependencyChecker.getDependents`: extract the dependents tags of a
comment body, then fetch and filter them. -/
def getDependents (fetch : Fetch) (ctx : RepoRef) (commentBody : Str) :
    List IssueData × List Nat :=
  getDependentsFrom fetch (getDependentsTags ctx commentBody)

/-- The self-reference filter of `DependencyChecker.evaluate` (applied to
both the dependency and the dependent list): an entity whose `number`
equals the current issue's number is dropped and a warning is logged
(counted here); every other entity is kept.  Returns (kept entities,
number of warnings). -/
def filterSelfRefs (selfNumber : Nat) : List IssueData → List IssueData × Nat
  | [] => ([], 0)
  | issue :: issues =>
    let r := filterSelfRefs selfNumber issues
    if issue.number == selfNumber then (r.1, r.2 + 1) else (issue :: r.1, r.2)

/-- The dependency set of the subject as computed by `evaluate`: extracted,
fetched, open-filtered, then self-filtered.  Returns (dependencies,
fetch-warning numbers, self-warning count). -/
def subjectDependencies (fetch : Fetch) (ctx : RepoRef) (host : Str) (kp : List Str)
    (selfNumber : Nat) (body : Str) : List IssueData × List Nat × Nat :=
  let r := getDependencies fetch ctx host kp body
  let f := filterSelfRefs selfNumber r.1
  (f.1, r.2, f.2)

/-- The dependent set of the subject as computed by `evaluate`, from the
body of its last bot comment (empty when there is none). -/
def subjectDependents (fetch : Fetch) (ctx : RepoRef) (selfNumber : Nat)
    (lastBotCommentBody : Str) : List IssueData × List Nat × Nat :=
  let r := getDependents fetch ctx lastBotCommentBody
  let f := filterSelfRefs selfNumber r.1
  (f.1, r.2, f.2)

/-!
## Comments and the reconciler (`IssueUpdater`)
-/

/-- A comment on an entity as listed by `octokit.rest.issues.listComments`:
its author's login and its body. -/
structure Comment where
  author : Str
  body : Str
deriving DecidableEq

/-- The author login of comments posted by the action. -/
def botLogin : Str := "github-actions[bot]".data

/-- The signature marker `IssueUpdater.SIGNATURE`. -/
def SIGNATURE : Str := "<!-- dependency-checker-action -->".data

/-- `String.prototype.includes(needle)`: some position of the haystack
starts with the needle. -/
def containsSub (needle : Str) : Str → Bool
  | [] => needle.isEmpty
  | c :: t => List.isPrefixOf needle (c :: t) || containsSub needle t

/-- `findLastBotComment`: the last listed comment whose author is the
actions bot and whose body contains the signature. -/
def findLastBotComment (comments : List Comment) : Option Comment :=
  comments.reverse.find?
    (fun comment => comment.author == botLogin && containsSub SIGNATURE comment.body)

/-- Modelled from the spec: the default values of the `label` /
`blocking_label` inputs ("blocked" and "blocking"); the configuration
module defining the two constants imported by `src/IssueUpdater.ts` is not
among the provided sources. -/
def BLOCKED_LABEL : Str := "blocked".data

/-- Modelled from the spec: see `BLOCKED_LABEL`. -/
def BLOCKING_LABEL : Str := "blocking".data

/-- The issue-type string (`'Pull Request'` or `'Issue'`, derived from the
triggering event name). -/
def pullRequestType : Str := "Pull Request".data

/-- One bullet of the comment body:
``- [${type} #${number}](${html_url}) – ${title}\n`` (the dash is U+2013). -/
def bulletLine (e : IssueData) : Str :=
  "- [".data ++ (if isPullRequest e then ("PR").data else ("Issue").data) ++ " #".data
    ++ natChars e.number ++ "](".data ++ e.html_url ++ ") – ".data ++ e.title ++ ['\n']

/-- `createDependenciesMessage`. -/
def createDependenciesMessage (issueType : Str) (dependencies : List IssueData) : Str :=
  if dependencies.isEmpty then
    "## ✅ All Dependencies Resolved.\n\nThis ".data ++ issueType
      ++ " has no blocking dependencies.".data
  else
    "## ⚠️ Blocking Dependencies Found:\n\nThis ".data ++ issueType
      ++ " should not be ".data
      ++ (if issueType == pullRequestType then ("merged").data else ("resolved").data)
      ++ " until the following dependencies are resolved:\n\n".data
      ++ (dependencies.map bulletLine).flatten

/-- `createDependentsMessage`. -/
def createDependentsMessage (issueType : Str) (dependents : List IssueData) : Str :=
  if dependents.isEmpty then
    "## ✅ All Dependents Resolved.\n\nThis ".data ++ issueType
      ++ " blocks no dependents.".data
  else
    "## ⚠️ Blocked Dependents Found:\n\nThis ".data ++ issueType
      ++ " should be ".data
      ++ (if issueType == pullRequestType then ("merged").data else ("resolved").data)
      ++ " to unblock the following dependents:\n\n".data
      ++ (dependents.map bulletLine).flatten

/-- `createCommentBody`: signature, dependencies section, `---` rule,
dependents section, `---` rule, fixed trailer. -/
def createCommentBody (issueType : Str) (dependencies dependents : List IssueData) : Str :=
  SIGNATURE ++ "\n".data
    ++ createDependenciesMessage issueType dependencies
    ++ "\n---\n".data
    ++ createDependentsMessage issueType dependents
    ++ "\n---\n*This is an automated message. Please resolve the above dependencies and dependents, if any.*".data
    ++ "\n<!-- DO NOT EDIT THIS COMMENT! IT WILL BREAK THE DEPENDENCY CHECKER. -->".data

/-- The observable API writes issued by one reconciliation. -/
inductive ApiCall where
  | postComment (body : Str)
  | addLabels (labels : List Str)
  | removeLabel (label : Str)
deriving DecidableEq

/-- The comment list and label set of the subject entity, as stored by the
tracker between runs. -/
structure IssueTrackerState where
  comments : List Comment
  labels : List Str
deriving DecidableEq

/-- Effect of `postComment` on the tracker: the created comment is listed
after the existing ones and carries the action's bot identity as author. -/
def postCommentEffect (st : IssueTrackerState) (body : Str) : IssueTrackerState :=
  { st with comments := st.comments ++ [Comment.mk botLogin body] }

/-- Effect of `addLabels` on the tracker: each label not yet present is
appended. -/
def addLabelsEffect (st : IssueTrackerState) (labels : List Str) : IssueTrackerState :=
  { st with labels := labels.foldl (fun ls l => if ls.contains l then ls else ls ++ [l]) st.labels }

/-- Effect of one `removeLabel` call on the tracker (removing an absent
label answers 404, which the updater treats as success). -/
def removeLabelEffect (st : IssueTrackerState) (l : Str) : IssueTrackerState :=
  { st with labels := st.labels.filter (fun x => x != l) }

/-- `handleDependencyUpdate` from `src/IssueUpdater.ts` as a transition on
the tracker state, also returning the list of API writes it issues:
compute the two emptiness flags, the last bot comment and the rendered
body; when the body equals the last bot comment's, do nothing; when some
dependency or dependent is open, post the body, add the applicable labels
(one `addLabels` call carrying the non-empty list) and remove the
inapplicable ones (one `removeLabel` call per label); otherwise post the
body only if a bot comment existed, and remove both labels. -/
def handleDependencyUpdate (issueType : Str) (dependencies dependents : List IssueData)
    (st : IssueTrackerState) : IssueTrackerState × List ApiCall :=
  let hasDependencies := decide (0 < dependencies.length)
  let hasDependents := decide (0 < dependents.length)
  let lastBotComment := findLastBotComment st.comments
  let newComment := createCommentBody issueType dependencies dependents
  let commentChanged :=
    match lastBotComment with
    | none => true
    | some c => c.body != newComment
  let labelsToAdd := (if hasDependencies then [BLOCKED_LABEL] else [])
    ++ (if hasDependents then [BLOCKING_LABEL] else [])
  let labelsToRemove := (if hasDependencies then [] else [BLOCKED_LABEL])
    ++ (if hasDependents then [] else [BLOCKING_LABEL])
  if !commentChanged then (st, [])
  else if hasDependencies || hasDependents then
    let st1 := postCommentEffect st newComment
    let st2 := addLabelsEffect st1 labelsToAdd
    let st3 := labelsToRemove.foldl removeLabelEffect st2
    (st3, ApiCall.postComment newComment
      :: (if labelsToAdd.isEmpty then [] else [ApiCall.addLabels labelsToAdd])
      ++ labelsToRemove.map ApiCall.removeLabel)
  else
    let st1 := if lastBotComment.isSome then postCommentEffect st newComment else st
    let st2 := labelsToRemove.foldl removeLabelEffect st1
    (st2, (if lastBotComment.isSome then [ApiCall.postComment newComment] else [])
      ++ labelsToRemove.map ApiCall.removeLabel)

/-- The comment posts among a call list. -/
def postedBodies (calls : List ApiCall) : List Str :=
  calls.filterMap (fun c => match c with | ApiCall.postComment b => some b | _ => none)

/-- The label operations (adds and removes) among a call list. -/
def labelCalls (calls : List ApiCall) : List ApiCall :=
  calls.filter (fun c => match c with | ApiCall.postComment _ => false | _ => true)

/-!
## `removeLabels` with per-label outcomes (`IssueUpdater.removeLabels`)
-/

/-- The outcome of one `octokit.rest.issues.removeLabel` request. -/
inductive RemoveOutcome where
  | ok
  | notFound
  | err
deriving DecidableEq

/-- The loop of `removeLabels`: every label is attempted in order; a 404
is logged and skipped, any other failure is pushed onto `labelErrors`.
Returns (labels attempted in order, collected failed labels in order). -/
def removeLabelsRun (api : Str → RemoveOutcome) : List Str → List Str × List Str
  | [] => ([], [])
  | l :: ls =>
    let r := removeLabelsRun api ls
    match api l with
    | RemoveOutcome.err => (l :: r.1, l :: r.2)
    | _ => (l :: r.1, r.2)

/-- `IssueUpdater.removeLabels`: attempt every removal, then — only if
some non-404 failure was collected — throw a single `CheckerError` naming
the failed labels (modelled as `some` of that list).  Returns (attempted
labels, thrown error). -/
def removeLabels (api : Str → RemoveOutcome) (labels : List Str) :
    List Str × Option (List Str) :=
  if labels.isEmpty then ([], none)
  else
    let r := removeLabelsRun api labels
    (r.1, if r.2.isEmpty then none else some r.2)

/-!
## The one-hop dependency update (`DependencyChecker.evaluate`)
-/

/-- The dependent set handed to a dependency's updater during the one-hop
pass of `evaluate`: the dependents parsed from the dependency's last bot
comment when one exists, and otherwise the triggering subject prepended to
the (then empty-bodied) parse. -/
def hopDependents (subject : IssueData) (fetch : Fetch) (ctx : RepoRef)
    (lastBotComment : Option Comment) : List IssueData :=
  let dependents := (getDependents fetch ctx ((lastBotComment.map Comment.body).getD [])).1
  match lastBotComment with
  | some _ => dependents
  | none => subject :: dependents

/-!
## Characterizations used by the theorem statements
-/

/-- The change flag computed by `handleDependencyUpdate`: true when no bot
comment exists or its body differs from the freshly rendered one. -/
def commentChangedFlag (issueType : Str) (dependencies dependents : List IssueData)
    (st : IssueTrackerState) : Bool :=
  match findLastBotComment st.comments with
  | none => true
  | some c => c.body != createCommentBody issueType dependencies dependents

/-- The labels the decision adds, as a function of the two sets alone. -/
def labelsToAddOf (dependencies dependents : List IssueData) : List Str :=
  (if dependencies.isEmpty then [] else [BLOCKED_LABEL])
    ++ (if dependents.isEmpty then [] else [BLOCKING_LABEL])

/-- The labels the decision removes, as a function of the two sets alone. -/
def labelsToRemoveOf (dependencies dependents : List IssueData) : List Str :=
  (if dependencies.isEmpty then [BLOCKED_LABEL] else [])
    ++ (if dependents.isEmpty then [BLOCKING_LABEL] else [])

/-- One step of the line loop of `extractDependencyBlock`, on the state
(in-block flag, accumulated block): a blank line clears the flag, a
key-phrase line sets it, and the trimmed line plus a newline is appended
exactly while the flag is set. -/
def blockFoldStep (kp : List Str) (s : Bool × Str) (l : Str) : Bool × Str :=
  let t := trimChars l
  if t.isEmpty then (false, s.2)
  else
    let inside := isKeyPhraseLine kp t || s.1
    (inside, if inside then s.2 ++ t ++ ['\n'] else s.2)

/-- The call list `handleDependencyUpdate` issues, characterized as a
function of the change flag, the two sets, and the presence of a prior bot
comment alone. -/
def expectedCalls (issueType : Str) (dependencies dependents : List IssueData)
    (st : IssueTrackerState) : List ApiCall :=
  if commentChangedFlag issueType dependencies dependents st then
    (if !dependencies.isEmpty || !dependents.isEmpty
        || (findLastBotComment st.comments).isSome
      then [ApiCall.postComment (createCommentBody issueType dependencies dependents)]
      else [])
    ++ (if (labelsToAddOf dependencies dependents).isEmpty then []
      else [ApiCall.addLabels (labelsToAddOf dependencies dependents)])
    ++ (labelsToRemoveOf dependencies dependents).map ApiCall.removeLabel
  else []

/-!
## Well-formedness used by the round-trip theorem

The round-trip statement quantifies over entities whose titles and URLs do
not collide with the comment grammar: a GitHub title has no newline and —
to keep the bot's own markup and the dependents-section heading
unambiguous — no `[` and no occurrence of the section phrase; a GitHub
entity URL has no `)`, whitespace or newline and ends in `/` followed by
the entity number.
-/

/-- The phrase without its trailing newline. -/
def phraseCore : Str := "the following dependents:".data

/-- Case-insensitive substring test. -/
def ciContains (needle : Str) : Str → Bool
  | [] => needle.isEmpty
  | c :: t => ciStartsWith needle (c :: t) || ciContains needle t

/-- Well-formedness of an entity URL for the bullet grammar. -/
def urlWF (u : Str) : Bool :=
  !(tailDigits u).isEmpty
    && ((u.take (u.length - (tailDigits u).length)).getLastD ' ' == '/')
    && (2 ≤ u.length - (tailDigits u).length)
    && !u.contains ')' && !u.contains '\n' && !u.contains ' '

/-- Well-formedness of an entity title for the bullet grammar. -/
def titleWF (t : Str) : Bool :=
  !t.contains '\n' && !t.contains '[' && !ciContains phraseCore t

/-- Well-formedness of an entity for the round-trip statement. -/
def entityWF (e : IssueData) : Bool :=
  titleWF e.title && urlWF e.html_url

/-- A certificate that a suffix of the body mismatches the section phrase
within its own characters (so no continuation can complete a match). -/
def windowMismatch (t : Str) : Bool :=
  (List.range (min dependentsPhrase.length t.length)).any (fun i =>
    !((dependentsPhrase[i]?.map Char.toLower) == (t[i]?.map Char.toLower)))

/-- A decidable certificate that no suffix position of a concrete string
can start a case-insensitive match of the section phrase, regardless of
what follows the string. -/
def regionCleanB (F : Str) : Bool :=
  (List.range F.length).all (fun p => windowMismatch (F.drop p))

/-- No position strictly inside `x` starts a case-insensitive match of the
section phrase in `x ++ k`. -/
def noPhraseStart (x k : Str) : Prop :=
  ∀ x1 c x2, x = x1 ++ c :: x2 →
    ciStartsWith dependentsPhrase (c :: (x2 ++ k)) = false

/-- A sample open pull request used as a concrete dependency. -/
def sampleDep : IssueData :=
  IssueData.mk 11 ("Sample dependency").data ("https://github.com/o/r/pull/11").data
    ("open").data true

/-- A sample open issue used as a concrete dependent. -/
def sampleDependent : IssueData :=
  IssueData.mk 22 ("Sample dependent").data ("https://github.com/o/r/issues/22").data
    ("open").data false

/-- The default key-phrase configuration (`'depends on|blocked by'`). -/
def defaultPhrases : List Str := [("depends on").data, ("blocked by").data]

/-- The default hostname (`github.com`). -/
def githubHost : Str := "github.com".data

/-!
## Theorems
-/

/-- **C8.**  Per-reference fetch-failure isolation: for every fetch oracle
and every list of extracted references, the dependency loop returns
exactly the successfully fetched references whose state is not `closed`,
in extraction order, and one warning per failed fetch (also in order) —
so a failure on one reference excludes only that reference and every
remaining reference is still processed. -/
theorem c8_fetch_failure_isolation (fetch : Fetch) (tags : List DependencyTag) :
    getDependenciesFrom fetch tags =
      (tags.filterMap (fun tag =>
          match fetch tag with
          | some e => if e.state != ("closed").data then some e else none
          | none => none),
        (tags.filter (fun tag => (fetch tag).isNone)).map (fun tag => tag.issue_number)) := by
  induction tags with
  | nil => rfl
  | cons t ts ih =>
    simp only [getDependenciesFrom, ih, List.filterMap_cons, List.filter_cons]
    cases h : fetch t with
    | none => simp [h]
    | some e =>
      by_cases hs : e.state != ("closed").data <;> simp [h, hs]

/-- **C9.**  Label removal semantics: every label in the list is attempted
(in order) regardless of earlier failures; a 404 (`notFound`) outcome is
treated as success; the call raises an error exactly when some label's
removal fails with a non-404 outcome, and the raised error names exactly
the failed labels, in order. -/
theorem c9_remove_labels_aggregate (api : Str → RemoveOutcome) (labels : List Str) :
    removeLabels api labels =
      (labels,
        if (labels.filter (fun l => api l == RemoveOutcome.err)).isEmpty then none
        else some (labels.filter (fun l => api l == RemoveOutcome.err))) := by
  have hrun : ∀ ls, removeLabelsRun api ls =
      (ls, ls.filter (fun l => api l == RemoveOutcome.err)) := by
    intro ls
    induction ls with
    | nil => rfl
    | cons l ls ih =>
      simp only [removeLabelsRun, ih, List.filter_cons]
      cases h : api l <;> simp [h]
  unfold removeLabels
  by_cases h : labels.isEmpty
  · have : labels = [] := by
      cases labels with
      | nil => rfl
      | cons a as => simp [List.isEmpty] at h
    subst this
    simp
  · simp [h, hrun]

/-- **C1 (amended).**  The self-reference guard of `evaluate` compares
numbers only: it keeps exactly the fetched entities whose `number` differs
from the subject's number — so a same-identity reference is always
excluded and one warning is recorded per exclusion, but a reference from a
different owner/repo with the same number is excluded as well. -/
theorem c1_self_guard_number_only (selfNumber : Nat) (issues : List IssueData) :
    filterSelfRefs selfNumber issues =
      (issues.filter (fun i => i.number != selfNumber),
        (issues.filter (fun i => i.number == selfNumber)).length) := by
  induction issues with
  | nil => rfl
  | cons i is ih =>
    simp only [filterSelfRefs, ih, List.filter_cons]
    by_cases h : i.number = selfNumber <;> simp [h]

/-- **C1 (counterexample).**  A dependency reference `other/otherrepo#5`
whose owner and repo differ from the execution context `owner/repo`, but
whose number equals the subject's number 5, is excluded by the guard (and
a warning recorded): the fetched open entity is present before the filter
and absent after it, refuting "no reference with a different owner/repo
identity is excluded by this guard". -/
theorem c1_counterexample :
    (subjectDependencies
        (fun t => if t = DependencyTag.mk ("other").data ("otherrepo").data 5
          then some (IssueData.mk 5 ("T").data
            ("https://github.com/other/otherrepo/issues/5").data ("open").data false)
          else none)
        (RepoRef.mk ("owner").data ("repo").data) githubHost defaultPhrases 5
        ("Depends on: other/otherrepo#5").data
      = ([], [], 1)) ∧
    (getDependencies
        (fun t => if t = DependencyTag.mk ("other").data ("otherrepo").data 5
          then some (IssueData.mk 5 ("T").data
            ("https://github.com/other/otherrepo/issues/5").data ("open").data false)
          else none)
        (RepoRef.mk ("owner").data ("repo").data) githubHost defaultPhrases
        ("Depends on: other/otherrepo#5").data).1
      = [IssueData.mk 5 ("T").data
          ("https://github.com/other/otherrepo/issues/5").data ("open").data false] ∧
    ("other").data ≠ ("owner").data := by
  refine ⟨by decide, by decide, by decide⟩

/-- **C10.**  During the one-hop update of an open dependency, the
dependent set handed to its updater is taken solely from its last bot
comment when one exists (the triggering subject is not injected), and is
exactly the singleton subject when none exists (the empty body parses to
no dependents). -/
theorem c10_hop_dependents_seed (subject : IssueData) (fetch : Fetch) (ctx : RepoRef) :
    (∀ c : Comment, hopDependents subject fetch ctx (some c) =
      (getDependents fetch ctx c.body).1) ∧
    hopDependents subject fetch ctx none = [subject] := by
  constructor
  · intro c
    rfl
  · rfl

/-- **C5.**  Format equivalence of the five reference syntaxes: each of
`#123`, `owner/repo#123`, `owner/repo/pull/123`,
`https://github.com/owner/repo/pull/123` and the markdown link
`[text](https://github.com/owner/repo/pull/123)`, alone inside a
declaration block, extracts to the single reference
`{owner: "owner", repo: "repo", number: 123}` — except the bare `#123`,
which resolves to the execution context's own owner/repo (for every
context). -/
theorem c5_format_equivalence (ctx : RepoRef) :
    getDependencyTags ctx githubHost defaultPhrases ("Depends on:\n#123").data
      = [DependencyTag.mk ctx.owner ctx.repo 123] ∧
    getDependencyTags ctx githubHost defaultPhrases ("Depends on:\nowner/repo#123").data
      = [DependencyTag.mk ("owner").data ("repo").data 123] ∧
    getDependencyTags ctx githubHost defaultPhrases ("Depends on:\nowner/repo/pull/123").data
      = [DependencyTag.mk ("owner").data ("repo").data 123] ∧
    getDependencyTags ctx githubHost defaultPhrases
        ("Depends on:\nhttps://github.com/owner/repo/pull/123").data
      = [DependencyTag.mk ("owner").data ("repo").data 123] ∧
    getDependencyTags ctx githubHost defaultPhrases
        ("Depends on:\n[text](https://github.com/owner/repo/pull/123)").data
      = [DependencyTag.mk ("owner").data ("repo").data 123] := by
  exact ⟨rfl, rfl, rfl, rfl, rfl⟩

/-- Deduplication keeps a two-element list whose keys differ. -/
theorem dedupTags_pair (t1 t2 : DependencyTag) (h : tagKey t1 ≠ tagKey t2) :
    dedupTags [t1, t2] = [t1, t2] := by
  have hb : (tagKey t1 == tagKey t2) = false := beq_eq_false_iff_ne.mpr h
  unfold dedupTags
  rw [List.foldl_cons, List.foldl_cons, List.foldl_nil,
    show mapInsert [] (tagKey t1) t1 = [(tagKey t1, t1)] from rfl]
  unfold mapInsert
  rw [show ([(tagKey t1, t1)].any fun p => p.1 == tagKey t2) = (tagKey t1 == tagKey t2) by
    simp [List.any]]
  rw [hb]
  rfl

/-- Keys of tags that share a repository but have different (single-digit)
numbers differ. -/
theorem tagKey_ne_of_natChars_ne (o r : Str) (m n : Nat)
    (h : natChars m ≠ natChars n) :
    tagKey (DependencyTag.mk o r m) ≠ tagKey (DependencyTag.mk o r n) := by
  intro he
  apply h
  simp only [tagKey, List.append_assoc, List.append_right_inj, List.cons.injEq,
    true_and] at he
  exact he

/-- **C6.**  Word-boundary discipline: `Depends on: #123EXCLUDED` yields no
reference; `Depends on: #123 #456` yields exactly the two references; for
any context, `owner/repo#123` yields only the cross-repo reference (no
additional intra-repo reference for the embedded `#123`); and, in general,
the intra-repo pattern can only match at a position whose lookbehind
(start of string, whitespace, or `(`) holds — never immediately after a
word character such as the `o` of `repo`. -/
theorem c6_word_boundary (ctx : RepoRef) :
    getDependencyTags ctx githubHost defaultPhrases ("Depends on: #123EXCLUDED").data = [] ∧
    getDependencyTags ctx githubHost defaultPhrases ("Depends on: #123 #456").data
      = [DependencyTag.mk ctx.owner ctx.repo 123, DependencyTag.mk ctx.owner ctx.repo 456] ∧
    (∀ ctx2 : RepoRef,
      getDependencyTags ctx2 githubHost defaultPhrases ("Depends on: owner/repo#123").data
        = [DependencyTag.mk ("owner").data ("repo").data 123]) ∧
    (∀ (prev : Option Char) (s : Str) (r : Nat × Char × Str),
      matchIntra prev s = some r → lookbehindOk prev = true) := by
  refine ⟨rfl, ?_, fun ctx2 => rfl, ?_⟩
  · show dedupTags
        [DependencyTag.mk ctx.owner ctx.repo 123, DependencyTag.mk ctx.owner ctx.repo 456]
        = _
    exact dedupTags_pair _ _ (tagKey_ne_of_natChars_ne _ _ 123 456 (by decide))
  · intro prev s r h
    by_cases hb : lookbehindOk prev
    · exact hb
    · simp [matchIntra, hb] at h

/-- **C6 (witness).**  The lookbehind guard instantiated at a concrete
successful match: `#1` preceded by a space. -/
theorem c6_witness : lookbehindOk (some ' ') = true :=
  (c6_word_boundary (RepoRef.mk [] [])).2.2.2 (some ' ') (("#1").data) (1, '1', []) rfl

/-- **C7.**  Declaration-block scoping: the line loop of
`extractDependencyBlock` is the fold whose state transitions are — flag
cleared on every blank (empty-after-trimming) line, flag set on every
trimmed line starting (case-insensitively) with a key phrase and a colon,
trimmed line plus newline appended while the flag is set; consequently
`Depends on:\n#123\n\n#456` yields only `#123`, a block with no trailing
blank line ends at input end, and multiple declaration blocks are all
honored and merged. -/
theorem c7_block_scoping (ctx : RepoRef) :
    (∀ (kp : List Str) (body : Str),
      extractDependencyBlock kp body =
        ((splitNl body).foldl (blockFoldStep kp) (false, [])).2) ∧
    getDependencyTags ctx githubHost defaultPhrases ("Depends on:\n#123\n\n#456").data
      = [DependencyTag.mk ctx.owner ctx.repo 123] ∧
    getDependencyTags ctx githubHost defaultPhrases ("Depends on:\n#123").data
      = [DependencyTag.mk ctx.owner ctx.repo 123] ∧
    getDependencyTags ctx githubHost defaultPhrases ("DEPENDS ON:\n#1\n\nDepends on:\n#2").data
      = [DependencyTag.mk ctx.owner ctx.repo 1, DependencyTag.mk ctx.owner ctx.repo 2] := by
  have hfold : ∀ (kp : List Str) (ls : List Str) (inside : Bool) (acc : Str),
      extractBlockLines kp ls inside acc = (ls.foldl (blockFoldStep kp) (inside, acc)).2 := by
    intro kp ls
    induction ls with
    | nil => intro inside acc; rfl
    | cons l ls ih =>
      intro inside acc
      simp only [extractBlockLines, List.foldl_cons, blockFoldStep]
      by_cases ht : (trimChars l).isEmpty
      · simp [ht, ih]
      · by_cases hk : isKeyPhraseLine kp (trimChars l) <;> simp [ht, hk, ih]
  refine ⟨?_, rfl, rfl, ?_⟩
  · intro kp body
    by_cases hb : body.isEmpty
    · have : body = [] := by
        cases body with
        | nil => rfl
        | cons a as => simp [List.isEmpty] at hb
      subst this
      rfl
    · simp [extractDependencyBlock, hb, hfold]
  · show dedupTags
        [DependencyTag.mk ctx.owner ctx.repo 1, DependencyTag.mk ctx.owner ctx.repo 2]
        = _
    exact dedupTags_pair _ _ (tagKey_ne_of_natChars_ne _ _ 1 2 (by decide))

/-- A single label removal never touches the comment list. -/
theorem comments_removeLabelEffect (st : IssueTrackerState) (l : Str) :
    (removeLabelEffect st l).comments = st.comments := rfl

/-- Folding label removals over the tracker state never touches the
comment list. -/
theorem comments_foldl_removeLabelEffect (ls : List Str) (st : IssueTrackerState) :
    (ls.foldl removeLabelEffect st).comments = st.comments := by
  induction ls generalizing st with
  | nil => rfl
  | cons l ls ih => rw [List.foldl_cons, ih]; rfl

/-- A rendered comment body contains the signature marker (it starts with
it). -/
theorem containsSub_SIGNATURE (issueType : Str) (dependencies dependents : List IssueData) :
    containsSub SIGNATURE (createCommentBody issueType dependencies dependents) = true := rfl

/-- After posting the rendered body, it is found as the last bot comment. -/
theorem findLastBotComment_append_post (comments : List Comment) (issueType : Str)
    (dependencies dependents : List IssueData) :
    findLastBotComment
        (comments ++ [Comment.mk botLogin (createCommentBody issueType dependencies dependents)])
      = some (Comment.mk botLogin (createCommentBody issueType dependencies dependents)) := by
  unfold findLastBotComment
  rw [List.reverse_append]
  simp [List.find?_cons, containsSub_SIGNATURE]

/-- `handleDependencyUpdate` issues exactly the calls of `expectedCalls`:
nothing when the comment is unchanged, and otherwise a post (except in the
all-resolved-with-no-prior-comment case) followed by the label operations
determined by the two sets alone. -/
theorem handle_calls (issueType : Str) (dependencies dependents : List IssueData)
    (st : IssueTrackerState) :
    (handleDependencyUpdate issueType dependencies dependents st).2 =
      expectedCalls issueType dependencies dependents st := by
  unfold handleDependencyUpdate expectedCalls commentChangedFlag labelsToAddOf labelsToRemoveOf
  cases hc : findLastBotComment st.comments with
  | none =>
    cases dependencies <;> cases dependents <;>
      simp [List.isEmpty, BLOCKED_LABEL, BLOCKING_LABEL]
  | some c =>
    by_cases hb : c.body = createCommentBody issueType dependencies dependents
    · simp [hb]
    · have hbne : (c.body != createCommentBody issueType dependencies dependents) = true := by
        simp [bne_iff_ne, hb]
      cases dependencies <;> cases dependents <;>
        simp [hbne, List.isEmpty, BLOCKED_LABEL, BLOCKING_LABEL]

/-- The comment posts of a reconciliation: the rendered body exactly when
the comment changed and there is something to announce. -/
theorem handle_posts (issueType : Str) (dependencies dependents : List IssueData)
    (st : IssueTrackerState) :
    postedBodies (handleDependencyUpdate issueType dependencies dependents st).2 =
      (if commentChangedFlag issueType dependencies dependents st
          && (!dependencies.isEmpty || !dependents.isEmpty
              || (findLastBotComment st.comments).isSome)
        then [createCommentBody issueType dependencies dependents] else []) := by
  rw [handle_calls]
  unfold expectedCalls
  by_cases hch : commentChangedFlag issueType dependencies dependents st <;>
    by_cases hpost : (!dependencies.isEmpty || !dependents.isEmpty
        || (findLastBotComment st.comments).isSome) = true <;>
      simp [hch, hpost, postedBodies, List.filterMap_append]

/-- The comment list after a reconciliation: the previous comments,
followed by the posted bodies as bot comments. -/
theorem handle_comments (issueType : Str) (dependencies dependents : List IssueData)
    (st : IssueTrackerState) :
    (handleDependencyUpdate issueType dependencies dependents st).1.comments =
      st.comments ++ (postedBodies (handleDependencyUpdate issueType dependencies dependents st).2).map
        (Comment.mk botLogin) := by
  rw [handle_posts]
  unfold handleDependencyUpdate commentChangedFlag
  cases hc : findLastBotComment st.comments with
  | none =>
    cases dependencies <;> cases dependents <;>
      simp [comments_foldl_removeLabelEffect, comments_removeLabelEffect, addLabelsEffect, postCommentEffect]
  | some c =>
    by_cases hb : c.body = createCommentBody issueType dependencies dependents
    · simp [hb]
    · have hbne : (c.body != createCommentBody issueType dependencies dependents) = true := by
        simp [bne_iff_ne, hb]
      cases dependencies <;> cases dependents <;>
        simp [hbne, comments_foldl_removeLabelEffect, comments_removeLabelEffect, addLabelsEffect, postCommentEffect]

set_option maxRecDepth 4000 in
/-- **C2 (counterexample).**  With one open dependency but an up-to-date
bot comment, reconciliation performs no API call at all — in particular
the `blocked` label is not added even though the dependency set is
non-empty and the label is absent, refuting "the label set operation is
performed ... regardless of whether the rendered comment body differs from
the last bot comment". -/
theorem c2_counterexample :
    (handleDependencyUpdate ("Issue").data [sampleDep] []
        (IssueTrackerState.mk
          [Comment.mk botLogin (createCommentBody ("Issue").data [sampleDep] [])] [])).2
      = [] ∧
    [sampleDep] ≠ ([] : List IssueData) ∧
    ¬ (IssueTrackerState.mk
        [Comment.mk botLogin (createCommentBody ("Issue").data [sampleDep] [])]
        []).labels.contains BLOCKED_LABEL := by
  refine ⟨by decide, by decide, by decide⟩

/-- **C2 (amended).**  The label operations are independent of whether a
comment is actually posted, but only within a reconciliation whose
rendered body differs from the last bot comment (or that has no bot
comment): there the `blocked` label is added exactly when the dependency
set is non-empty (else a removal is issued) and the `blocking` label is
added exactly when the dependent set is non-empty (else a removal is
issued), as a pure function of the two sets; when the rendered body equals
the last bot comment, no label operation (and no call at all) is
performed. -/
theorem c2_labels_only_on_comment_change (issueType : Str)
    (dependencies dependents : List IssueData) (st : IssueTrackerState) :
    (commentChangedFlag issueType dependencies dependents st = false →
      (handleDependencyUpdate issueType dependencies dependents st).2 = []) ∧
    (commentChangedFlag issueType dependencies dependents st = true →
      labelCalls (handleDependencyUpdate issueType dependencies dependents st).2 =
        (if (labelsToAddOf dependencies dependents).isEmpty then []
          else [ApiCall.addLabels (labelsToAddOf dependencies dependents)])
        ++ (labelsToRemoveOf dependencies dependents).map ApiCall.removeLabel) := by
  constructor
  · intro hflag
    rw [handle_calls]
    unfold expectedCalls
    simp [hflag]
  · intro hflag
    rw [handle_calls]
    unfold expectedCalls
    by_cases hpost : (!dependencies.isEmpty || !dependents.isEmpty
        || (findLastBotComment st.comments).isSome) = true <;>
      by_cases hadd : (labelsToAddOf dependencies dependents).isEmpty <;>
        simp [hflag, hpost, hadd, labelCalls, List.filter_append]

/-- **C2 (witness).**  The label characterization applied at a concrete
changed reconciliation: one dependency, no dependents, empty tracker. -/
theorem c2_witness :
    commentChangedFlag ("Issue").data [sampleDep] [] (IssueTrackerState.mk [] []) = true ∧
    labelCalls (handleDependencyUpdate ("Issue").data [sampleDep] []
        (IssueTrackerState.mk [] [])).2 =
      (if (labelsToAddOf [sampleDep] []).isEmpty then []
        else [ApiCall.addLabels (labelsToAddOf [sampleDep] [])])
      ++ (labelsToRemoveOf [sampleDep] []).map ApiCall.removeLabel :=
  ⟨rfl, (c2_labels_only_on_comment_change ("Issue").data [sampleDep] []
    (IssueTrackerState.mk [] [])).2 rfl⟩

/-- **C3 (counterexample).**  Reconciling an entity that has no prior bot
comment and empty dependency/dependent sets twice posts zero comments in
total (not exactly one), and the second run still issues the two
label-removal calls (it is not a no-op), refuting the claim as stated. -/
theorem c3_counterexample :
    postedBodies (handleDependencyUpdate ("Issue").data [] []
        (IssueTrackerState.mk [] [])).2 = [] ∧
    (handleDependencyUpdate ("Issue").data [] []
        ((handleDependencyUpdate ("Issue").data [] [] (IssueTrackerState.mk [] [])).1)).2
      = [ApiCall.removeLabel BLOCKED_LABEL, ApiCall.removeLabel BLOCKING_LABEL] := by
  exact ⟨rfl, rfl⟩

/-- **C3 (amended).**  Reconciliation is idempotent up to the degenerate
all-resolved-with-no-prior-comment case: the second of two consecutive
identical reconciliations never posts a comment; and whenever the
dependency or dependent set is non-empty, the second run performs no API
call at all, and over the two runs exactly one comment is posted if the
first run saw a changed (or missing) bot comment and none otherwise. -/
theorem c3_reconcile_idempotent (issueType : Str)
    (dependencies dependents : List IssueData) (st : IssueTrackerState) :
    postedBodies (handleDependencyUpdate issueType dependencies dependents
        ((handleDependencyUpdate issueType dependencies dependents st).1)).2 = [] ∧
    ((dependencies ≠ [] ∨ dependents ≠ []) →
      (handleDependencyUpdate issueType dependencies dependents
          ((handleDependencyUpdate issueType dependencies dependents st).1)).2 = [] ∧
      postedBodies (handleDependencyUpdate issueType dependencies dependents st).2 =
        (if commentChangedFlag issueType dependencies dependents st
          then [createCommentBody issueType dependencies dependents] else [])) := by
  have hth : commentChangedFlag issueType dependencies dependents st = true →
      (!dependencies.isEmpty || !dependents.isEmpty
        || (findLastBotComment st.comments).isSome) = true →
      commentChangedFlag issueType dependencies dependents
        ((handleDependencyUpdate issueType dependencies dependents st).1) = false := by
    intro hch hpost
    unfold commentChangedFlag
    rw [handle_comments, handle_posts, hch, hpost]
    simp only [Bool.true_and, if_pos trivial, List.map_cons, List.map_nil, if_true]
    rw [findLastBotComment_append_post]
    simp
  by_cases hch : commentChangedFlag issueType dependencies dependents st
  · by_cases hpost : (!dependencies.isEmpty || !dependents.isEmpty
        || (findLastBotComment st.comments).isSome) = true
    · have hch2 := hth hch hpost
      constructor
      · rw [handle_posts, hch2]
        simp
      · intro hne
        refine ⟨?_, ?_⟩
        · rw [handle_calls]
          unfold expectedCalls
          simp [hch2]
        · rw [handle_posts, hch, hpost]
          simp [hch]
    · -- nothing was posted: both sets empty and no prior comment
      have hpost2 : (!dependencies.isEmpty || !dependents.isEmpty
          || (findLastBotComment st.comments).isSome) = false := by
        cases h : (!dependencies.isEmpty || !dependents.isEmpty
            || (findLastBotComment st.comments).isSome) with
        | true => exact absurd h hpost
        | false => rfl
      have h1 : dependencies.isEmpty = true := by
        cases h : dependencies.isEmpty with
        | true => rfl
        | false => rw [h] at hpost2; simp at hpost2
      have h2 : dependents.isEmpty = true := by
        cases h : dependents.isEmpty with
        | true => rfl
        | false => rw [h] at hpost2; simp at hpost2
      have h3 : findLastBotComment st.comments = none := by
        cases h : findLastBotComment st.comments with
        | none => rfl
        | some c => rw [h] at hpost2; simp at hpost2
      constructor
      · rw [handle_posts]
        have hcm : (handleDependencyUpdate issueType dependencies dependents st).1.comments
            = st.comments := by
          rw [handle_comments, handle_posts, hch]
          simp [hpost2]
        unfold commentChangedFlag
        rw [hcm, h3]
        simp [h1, h2, h3]
      · intro hne
        exfalso
        rcases hne with h | h
        · cases dependencies with
          | nil => exact h rfl
          | cons a as => simp [List.isEmpty] at h1
        · cases dependents with
          | nil => exact h rfl
          | cons a as => simp [List.isEmpty] at h2
  · -- unchanged: the first run is a complete no-op
    have hst : (handleDependencyUpdate issueType dependencies dependents st).1 = st := by
      unfold handleDependencyUpdate
      unfold commentChangedFlag at hch
      cases hlc : findLastBotComment st.comments with
      | none => rw [hlc] at hch; simp at hch
      | some c =>
        rw [hlc] at hch
        simp only [Bool.not_eq_true] at hch
        simp [hch]
    rw [hst]
    have hcalls : (handleDependencyUpdate issueType dependencies dependents st).2 = [] := by
      rw [handle_calls]
      unfold expectedCalls
      simp only [Bool.not_eq_true] at hch
      simp [hch]
    constructor
    · rw [handle_posts]
      simp only [Bool.not_eq_true] at hch
      simp [hch]
    · intro hne
      refine ⟨hcalls, ?_⟩
      rw [handle_posts]
      simp only [Bool.not_eq_true] at hch
      simp [hch]

/-- **C3 (witness).**  The idempotence statement applied at a concrete
run: one dependency, one dependent, empty tracker. -/
theorem c3_witness :
    ([sampleDep] ≠ ([] : List IssueData) ∨ [sampleDependent] ≠ ([] : List IssueData)) ∧
    ((handleDependencyUpdate ("Issue").data [sampleDep] [sampleDependent]
        ((handleDependencyUpdate ("Issue").data [sampleDep] [sampleDependent]
          (IssueTrackerState.mk [] [])).1)).2 = [] ∧
      postedBodies (handleDependencyUpdate ("Issue").data [sampleDep] [sampleDependent]
          (IssueTrackerState.mk [] [])).2 =
        (if commentChangedFlag ("Issue").data [sampleDep] [sampleDependent]
            (IssueTrackerState.mk [] [])
          then [createCommentBody ("Issue").data [sampleDep] [sampleDependent]] else [])) :=
  ⟨Or.inl (by decide),
    (c3_reconcile_idempotent ("Issue").data [sampleDep] [sampleDependent]
      (IssueTrackerState.mk [] [])).2 (Or.inl (by decide))⟩

/-!
## Character and digit-printing lemmas
-/

/-- `Char.ofNat` is left-inverted by `Char.toNat` below the surrogate
range. -/
theorem char_toNat_ofNat_valid (n : Nat) (h : n < 55296) : (Char.ofNat n).toNat = n := by
  unfold Char.ofNat
  rw [dif_pos]
  · rfl
  · exact Or.inl h

/-- Lowercasing cannot produce a character outside the lowercase-letter
range `97..122` except the character itself. -/
theorem toLower_eq_nonletter (c d : Char) (hd : d.toNat < 97) (h : c.toLower = d) :
    c = d := by
  have h2 : (if c.toNat ≥ 65 ∧ c.toNat ≤ 90 then Char.ofNat (c.toNat + 32) else c) = d := h
  by_cases hc : c.toNat ≥ 65 ∧ c.toNat ≤ 90
  · rw [if_pos hc] at h2
    exfalso
    have hv : (Char.ofNat (c.toNat + 32)).toNat = c.toNat + 32 :=
      char_toNat_ofNat_valid _ (by omega)
    rw [h2] at hv
    omega
  · rwa [if_neg hc] at h2

/-- Characters below code 65 are fixed by lowercasing. -/
theorem toLower_eq_self_of_lt65 (c : Char) (h : c.toNat < 65) : c.toLower = c := by
  have h2 : c.toLower = (if c.toNat ≥ 65 ∧ c.toNat ≤ 90 then Char.ofNat (c.toNat + 32) else c) := rfl
  rw [h2, if_neg (by omega)]

/-- A digit character has a code in `48..57`. -/
theorem isDigit_toNat (c : Char) (h : c.isDigit = true) :
    48 ≤ c.toNat ∧ c.toNat ≤ 57 := by
  simp only [Char.isDigit, decide_eq_true_eq, Bool.and_eq_true] at h
  exact ⟨h.1, h.2⟩

/-- The digit characters of `48 + m` for `m < 10`. -/
theorem ofNat_digit_isDigit : ∀ m : Fin 10,
    Char.isDigit (Char.ofNat (48 + m.val)) = true ∧
    (Char.ofNat (48 + m.val)).toNat = 48 + m.val := by decide

/-- `natCharsAux` prepends to its accumulator. -/
theorem natCharsAux_append (fuel : Nat) : ∀ (n : Nat) (acc : Str),
    natCharsAux fuel n acc = natCharsAux fuel n [] ++ acc := by
  induction fuel with
  | zero => intro n acc; rfl
  | succ fuel ih =>
    intro n acc
    by_cases h : n < 10
    · simp [natCharsAux, h]
    · simp only [natCharsAux, if_neg h]
      rw [ih (n / 10) (Char.ofNat (48 + n % 10) :: acc),
        ih (n / 10) [Char.ofNat (48 + n % 10)], List.append_assoc]
      rfl

/-- `digitsVal` over an appended final digit. -/
theorem digitsVal_append_one (a : Str) (c : Char) :
    digitsVal (a ++ [c]) = 10 * digitsVal a + (c.toNat - 48) := by
  unfold digitsVal
  rw [List.foldl_append]
  rfl

/-- Correctness of the fuelled digit printer: with enough fuel, the printed
digits are all decimal digits, non-empty, and parse back to the number. -/
theorem natCharsAux_ok : ∀ (fuel n : Nat), n < 10 ^ fuel → 1 ≤ fuel →
    (natCharsAux fuel n []).all Char.isDigit = true ∧
    natCharsAux fuel n [] ≠ [] ∧
    digitsVal (natCharsAux fuel n []) = n := by
  intro fuel
  induction fuel with
  | zero => intro n h h1; omega
  | succ fuel ih =>
    intro n hlt _
    by_cases h : n < 10
    · have hd := ofNat_digit_isDigit ⟨n % 10, Nat.mod_lt _ (by omega)⟩
      have hd1 : Char.isDigit (Char.ofNat (48 + n % 10)) = true := hd.1
      have hd2 : (Char.ofNat (48 + n % 10)).toNat = 48 + n % 10 := hd.2
      simp only [natCharsAux, if_pos h]
      refine ⟨?_, by simp, ?_⟩
      · simp [List.all_cons, hd1]
      · show digitsVal ([] ++ [Char.ofNat (48 + n % 10)]) = n
        rw [digitsVal_append_one]
        have hz : digitsVal [] = 0 := rfl
        rw [hz, hd2]
        omega
    · have hf : 1 ≤ fuel := by
        by_contra hc
        have : fuel = 0 := by omega
        subst this
        simp at hlt
        omega
      have hdiv : n / 10 < 10 ^ fuel := by
        rw [pow_succ] at hlt
        omega
      have ihr := ih (n / 10) hdiv hf
      have hd := ofNat_digit_isDigit ⟨n % 10, Nat.mod_lt _ (by omega)⟩
      have hd1 : Char.isDigit (Char.ofNat (48 + n % 10)) = true := hd.1
      have hd2 : (Char.ofNat (48 + n % 10)).toNat = 48 + n % 10 := hd.2
      simp only [natCharsAux, if_neg h]
      rw [natCharsAux_append]
      refine ⟨?_, by simp, ?_⟩
      · rw [List.all_append, ihr.1]
        simp [hd1]
      · rw [digitsVal_append_one, ihr.2.2, hd2]
        omega

/-- Every natural is below the next power of ten. -/
theorem lt_ten_pow_succ (n : Nat) : n < 10 ^ (n + 1) := by
  calc n < 2 ^ n := Nat.lt_two_pow n
  _ ≤ 10 ^ n := Nat.pow_le_pow_left (by omega) _
  _ ≤ 10 ^ (n + 1) := Nat.pow_le_pow_right (by omega) (by omega)

/-- The digits of `n` are all decimal digits. -/
theorem natChars_all_digits (n : Nat) : (natChars n).all Char.isDigit = true :=
  (natCharsAux_ok (n + 1) n (lt_ten_pow_succ n) (by omega)).1

/-- The digits of `n` are non-empty. -/
theorem natChars_ne_nil (n : Nat) : natChars n ≠ [] :=
  (natCharsAux_ok (n + 1) n (lt_ten_pow_succ n) (by omega)).2.1

/-- Printing then parsing a number is the identity. -/
theorem digitsVal_natChars (n : Nat) : digitsVal (natChars n) = n :=
  (natCharsAux_ok (n + 1) n (lt_ten_pow_succ n) (by omega)).2.2

/-- `natChars` is injective. -/
theorem natChars_injective (m n : Nat) (h : natChars m = natChars n) : m = n := by
  have := congrArg digitsVal h
  rwa [digitsVal_natChars, digitsVal_natChars] at this

/-- `takeWhile` and `dropWhile` on a list that starts with a satisfying
run followed by a failing element. -/
theorem takeWhile_dropWhile_append (p : Char → Bool) (a : Str) (c : Char) (b : Str)
    (ha : a.all p = true) (hc : p c = false) :
    (a ++ c :: b).takeWhile p = a ∧ (a ++ c :: b).dropWhile p = c :: b := by
  induction a with
  | nil => simp [List.takeWhile, List.dropWhile, hc]
  | cons x a ih =>
    simp only [List.all_cons, Bool.and_eq_true] at ha
    have ihr := ih ha.2
    simp [List.takeWhile, List.dropWhile, ha.1, ihr.1, ihr.2]

/-- A list avoiding a character satisfies the pointwise disequality test. -/
theorem all_bne_of_not_contains (u : Str) (a : Char) (h : u.contains a = false) :
    u.all (fun c => c != a) = true := by
  induction u with
  | nil => rfl
  | cons c t ih =>
    simp only [List.contains_cons, Bool.or_eq_false_iff] at h
    simp only [List.all_cons, Bool.and_eq_true, bne_iff_ne]
    refine ⟨?_, ih h.2⟩
    intro he
    subst he
    simp at h

/-!
## Scanner lemmas
-/

/-- A successful `bulletCheck` returns its inputs. -/
theorem bulletCheck_some (ds u s5 : Str) (x : Str × Char × Str)
    (h : bulletCheck ds u s5 = some x) : x = (ds, ')', s5) := by
  unfold bulletCheck at h
  split at h
  · exact (Option.some.inj h).symm
  · exact absurd h (by simp)

/-- A successful `bulletUrl` strictly shrinks the input. -/
theorem bulletUrl_rest_lt (ds s4 : Str) (x : Str × Char × Str)
    (h : bulletUrl ds s4 = some x) : x.2.2.length < s4.length := by
  unfold bulletUrl at h
  split at h
  · rename_i c s5 heq
    split at h
    · have hx : x.2.2 = s5 := by rw [bulletCheck_some _ _ _ _ h]
      have hsuf : (c :: s5).length ≤ s4.length :=
        heq ▸ (List.dropWhile_suffix _).length_le
      simp only [List.length_cons] at hsuf
      rw [hx]
      omega
    · exact absurd h (by simp)
  · exact absurd h (by simp)

/-- A successful `bulletNum` strictly shrinks the input. -/
theorem bulletNum_rest_lt (s3 : Str) (x : Str × Char × Str)
    (h : bulletNum s3 = some x) : x.2.2.length < s3.length := by
  unfold bulletNum at h
  split at h
  · rename_i c0 c1 s4 heq
    split at h
    · have hr := bulletUrl_rest_lt _ _ _ h
      have hsuf : (c0 :: c1 :: s4).length ≤ s3.length :=
        heq ▸ (List.dropWhile_suffix _).length_le
      simp only [List.length_cons] at hsuf
      omega
    · exact absurd h (by simp)
  · exact absurd h (by simp)

/-- A successful `bulletTagged` strictly shrinks the input. -/
theorem bulletTagged_rest_lt (s2 : Str) (x : Str × Char × Str)
    (h : bulletTagged s2 = some x) : x.2.2.length < s2.length := by
  unfold bulletTagged at h
  split at h
  · rename_i c0 c1 s3
    split at h
    · have := bulletNum_rest_lt _ _ h
      simp only [List.length_cons]
      omega
    · exact absurd h (by simp)
  · exact absurd h (by simp)

/-- The type-tag alternation consumes only within the input. -/
theorem matchBulletTag_rest_le (s1 s2 : Str) (h : matchBulletTag s1 = some s2) :
    s2.length ≤ s1.length := by
  unfold matchBulletTag at h
  split at h
  · rw [← Option.some.inj h, List.length_drop]
    omega
  · split at h
    · rw [← Option.some.inj h, List.length_drop]
      omega
    · exact absurd h (by simp)

/-- A successful bullet match leaves a strictly shorter remainder. -/
theorem matchBullet_rest_lt (prev : Option Char) (s : Str) (x : Str × Char × Str)
    (h : matchBullet prev s = some x) : x.2.2.length < s.length := by
  unfold matchBullet at h
  split at h
  · rename_i c0 c1 c2 s1
    split at h
    · split at h
      · rename_i s2 heq
        have h1 := bulletTagged_rest_lt _ _ h
        have h2 := matchBulletTag_rest_le _ _ heq
        simp only [List.length_cons]
        omega
      · exact absurd h (by simp)
    · exact absurd h (by simp)
  · exact absurd h (by simp)

/-- Scanning the empty string finds nothing, whatever the fuel. -/
theorem genScanAux_nil {α : Type} (m : Option Char → Str → Option (α × Char × Str))
    (f : Nat) (p : Option Char) : genScanAux m f p [] = [] := by
  cases f <;> rfl

/-- With enough fuel, the scan result does not depend on the fuel. -/
theorem genScanAux_fuel {α : Type} (m : Option Char → Str → Option (α × Char × Str))
    (hm : ∀ p s x, m p s = some x → x.2.2.length < s.length) :
    ∀ (f1 f2 : Nat) (p : Option Char) (s : Str),
      s.length ≤ f1 → s.length ≤ f2 → genScanAux m f1 p s = genScanAux m f2 p s := by
  intro f1
  induction f1 with
  | zero =>
    intro f2 p s h1 h2
    have : s = [] := List.length_eq_zero.mp (by omega)
    subst this
    rw [genScanAux_nil, genScanAux_nil]
  | succ f1 ih =>
    intro f2 p s h1 h2
    cases s with
    | nil => rw [genScanAux_nil, genScanAux_nil]
    | cons c t =>
      cases f2 with
      | zero => simp at h2
      | succ f2 =>
        simp only [genScanAux]
        cases hmc : m p (c :: t) with
        | none =>
          exact ih f2 (some c) t (by simp at h1; omega) (by simp at h2; omega)
        | some x =>
          obtain ⟨a, lc, rest⟩ := x
          have hlt := hm p (c :: t) ⟨a, lc, rest⟩ hmc
          simp only [List.length_cons] at hlt h1 h2
          change a :: genScanAux m f1 (some lc) rest = a :: genScanAux m f2 (some lc) rest
          rw [ih f2 (some lc) rest (by omega) (by omega)]

/-- One step of the scan. -/
theorem genScanFrom_cons {α : Type} (m : Option Char → Str → Option (α × Char × Str))
    (hm : ∀ p s x, m p s = some x → x.2.2.length < s.length)
    (p : Option Char) (c : Char) (t : Str) :
    genScanFrom m p (c :: t) =
      (match m p (c :: t) with
        | some (a, lc, rest) => a :: genScanFrom m (some lc) rest
        | none => genScanFrom m (some c) t) := by
  unfold genScanFrom
  simp only [List.length_cons, genScanAux]
  cases hmc : m p (c :: t) with
  | none => rfl
  | some x =>
    obtain ⟨a, lc, rest⟩ := x
    have hlt := hm p (c :: t) ⟨a, lc, rest⟩ hmc
    simp only [List.length_cons] at hlt
    change a :: genScanAux m t.length (some lc) rest
      = a :: genScanAux m rest.length (some lc) rest
    rw [genScanAux_fuel m hm t.length rest.length (some lc) rest (by omega) (by omega)]

/-- The bullet matcher ignores the preceding character. -/
theorem matchBullet_prev (p q : Option Char) (s : Str) :
    matchBullet p s = matchBullet q s := rfl

/-- The bullet matcher fails wherever the third character is not `[`. -/
theorem matchBullet_none_of_third (p : Option Char) (s : Str)
    (h : s[2]? ≠ some '[') : matchBullet p s = none := by
  unfold matchBullet
  split
  · rename_i c0 c1 c2 s1
    by_cases hc : (c0 == '-' && c1 == ' ' && c2 == '[') = true
    · exfalso
      apply h
      simp only [Bool.and_eq_true, beq_iff_eq] at hc
      simp [hc.2]
    · simp only [Bool.not_eq_true] at hc
      rw [hc]
      rfl
  · rfl

/-- `contains` and membership. -/
theorem not_mem_of_contains_eq_false (l : Str) (a : Char) (h : l.contains a = false) :
    a ∉ l := by
  induction l with
  | nil => simp
  | cons c t ih =>
    simp only [List.contains_cons, Bool.or_eq_false_iff] at h
    intro hm
    cases hm with
    | head => simp at h
    | tail _ hm2 => exact ih h.2 hm2

/-- The scan over the bullet matcher ignores the starting preceding
character (the pattern has no lookbehind). -/
theorem genScanAux_mb_prev : ∀ (f : Nat) (p q : Option Char) (s : Str),
    genScanAux matchBullet f p s = genScanAux matchBullet f q s := by
  intro f
  induction f with
  | zero => intro p q s; rfl
  | succ f ih =>
    intro p q s
    cases s with
    | nil => rfl
    | cons c t =>
      have hpq : matchBullet p (c :: t) = matchBullet q (c :: t) := rfl
      simp only [genScanAux, hpq]

/-- A match step of the scan. -/
theorem genScanFrom_match {α : Type} (m : Option Char → Str → Option (α × Char × Str))
    (hm : ∀ p s x, m p s = some x → x.2.2.length < s.length)
    (p : Option Char) (s : Str) (a : α) (lc : Char) (rest : Str)
    (hx : m p s = some (a, lc, rest)) :
    genScanFrom m p s = a :: genScanFrom m (some lc) rest := by
  cases s with
  | nil =>
    have := hm p [] (a, lc, rest) hx
    simp at this
  | cons c t =>
    rw [genScanFrom_cons m hm, hx]

/-- The bullet line starts with `- [`. -/
theorem bulletLine_shape (e : IssueData) :
    bulletLine e = '-' :: ' ' :: '[' ::
      ((if isPullRequest e then ("PR").data else ("Issue").data)
        ++ (' ' :: '#' :: (natChars e.number
        ++ (']' :: '(' :: (e.html_url
        ++ (')' :: ' ' :: '–' :: ' ' :: (e.title ++ ['\n']))))))) := by
  unfold bulletLine
  simp [List.append_assoc]

/-- Skipping match-free junk: the bullet scan of `j ++ rest` equals the
scan of `rest` when no position in `j` can start a bullet (no `[` in `j`,
and `rest` does not supply one as the scan's third character across the
boundary). -/
theorem bulletScan_skip : ∀ (j rest : Str) (p : Option Char),
    '[' ∉ j → rest[0]? ≠ some '[' → rest[1]? ≠ some '[' →
    genScanFrom matchBullet p (j ++ rest) = genScanFrom matchBullet none rest := by
  intro j
  induction j with
  | nil =>
    intro rest p _ _ _
    show genScanAux matchBullet rest.length p rest = genScanAux matchBullet rest.length none rest
    exact genScanAux_mb_prev _ p none rest
  | cons c j ih =>
    intro rest p h1 h2 h3
    rw [List.cons_append, genScanFrom_cons matchBullet matchBullet_rest_lt]
    have hnone : matchBullet p (c :: (j ++ rest)) = none := by
      apply matchBullet_none_of_third
      rw [show ((c :: (j ++ rest))[2]?) = (j ++ rest)[1]? from by simp]
      cases j with
      | nil => simpa using h3
      | cons d j2 =>
        cases j2 with
        | nil => simpa using h2
        | cons e j3 =>
          have he : e ≠ '[' := fun hh => h1 (by simp [hh])
          simp [he]
    rw [hnone]
    exact ih rest (some c) (fun hh => h1 (List.mem_cons_of_mem _ hh)) h2 h3

/-- Evaluating the digit, bracket and parenthesis stage on a printed
number. -/
theorem bulletNum_eval (n : Nat) (Z : Str) :
    bulletNum (natChars n ++ (']' :: '(' :: Z)) = bulletUrl (natChars n) Z := by
  unfold bulletNum
  have h := takeWhile_dropWhile_append Char.isDigit (natChars n) ']' ('(' :: Z)
    (natChars_all_digits n) (by decide)
  rw [h.2, h.1]
  rfl

/-- Evaluating the URL stage on a parenthesis-free URL. -/
theorem bulletUrl_eval (ds u R : Str) (hnp : u.contains ')' = false) :
    bulletUrl ds (u ++ (')' :: R)) = bulletCheck ds u R := by
  unfold bulletUrl
  have h := takeWhile_dropWhile_append (fun c => c != ')') u ')' R
    (all_bne_of_not_contains u ')' hnp) (by decide)
  rw [h.2, h.1]
  rfl

/-- Evaluating the final check on a printed number and a well-formed URL. -/
theorem bulletCheck_eval (n : Nat) (u R : Str) (hu : urlWF u = true) :
    bulletCheck (natChars n) u R = some (natChars n, ')', R) := by
  unfold bulletCheck
  unfold urlWF at hu
  simp only [Bool.and_eq_true] at hu
  obtain ⟨⟨⟨⟨⟨h1, h2⟩, h3⟩, h4⟩, h5⟩, h6⟩ := hu
  rw [if_pos]
  simp only [Bool.and_eq_true]
  refine ⟨⟨⟨?_, h1⟩, h2⟩, h3⟩
  cases hc : (natChars n).isEmpty
  · rfl
  · exact absurd (List.isEmpty_iff.mp hc) (natChars_ne_nil n)

/-- The bullet matcher consumes exactly the head of a well-formed bullet
line, yielding the printed number and resuming after the closing
parenthesis. -/
theorem matchBullet_bullet (e : IssueData) (rest : Str) (hwf : entityWF e = true) :
    matchBullet none (bulletLine e ++ rest)
      = some (natChars e.number, ')',
          ' ' :: '–' :: ' ' :: (e.title ++ '\n' :: rest)) := by
  unfold entityWF at hwf
  simp only [Bool.and_eq_true] at hwf
  have hu : urlWF e.html_url = true := hwf.2
  have hnp : e.html_url.contains ')' = false := by
    unfold urlWF at hu
    simp only [Bool.and_eq_true, Bool.not_eq_eq_eq_not, Bool.not_true] at hu
    exact hu.1.1.2
  rw [bulletLine_shape, List.cons_append, List.cons_append, List.cons_append]
  have hstep : ∀ X : Str,
      matchBullet none ('-' :: ' ' :: '[' :: X)
        = (match matchBulletTag X with
            | some s2 => bulletTagged s2
            | none => none) := fun X => rfl
  rw [hstep]
  have htag : matchBulletTag
      (((if isPullRequest e then ("PR").data else ("Issue").data)
        ++ (' ' :: '#' :: (natChars e.number
        ++ (']' :: '(' :: (e.html_url
        ++ (')' :: ' ' :: '–' :: ' ' :: (e.title ++ ['\n']))))))) ++ rest)
      = some ((' ' :: '#' :: (natChars e.number
        ++ (']' :: '(' :: (e.html_url
        ++ (')' :: ' ' :: '–' :: ' ' :: (e.title ++ ['\n'])))))) ++ rest) := by
    cases hpr : isPullRequest e <;> simp only [if_pos, if_neg, Bool.false_eq_true,
      if_false, if_true, List.append_assoc] <;> rfl
  rw [htag]
  have hj : ((' ' :: '#' :: (natChars e.number
        ++ (']' :: '(' :: (e.html_url
        ++ (')' :: ' ' :: '–' :: ' ' :: (e.title ++ ['\n'])))))) ++ rest)
      = ' ' :: '#' :: ((natChars e.number
        ++ (']' :: '(' :: (e.html_url
        ++ (')' :: ' ' :: '–' :: ' ' :: (e.title ++ ['\n'])))))) ++ rest := by
    simp
  rw [hj]
  show bulletNum ((natChars e.number ++ (']' :: '(' :: (e.html_url
    ++ (')' :: ' ' :: '–' :: ' ' :: (e.title ++ ['\n']))))) ++ rest) = _
  have hre : ((natChars e.number ++ (']' :: '(' :: (e.html_url
      ++ (')' :: ' ' :: '–' :: ' ' :: (e.title ++ ['\n']))))) ++ rest)
      = natChars e.number ++ (']' :: '(' :: ((e.html_url
        ++ (')' :: (' ' :: '–' :: ' ' :: (e.title ++ '\n' :: rest)))))) := by
    simp [List.append_assoc]
  rw [hre, bulletNum_eval, bulletUrl_eval _ _ _ hnp, bulletCheck_eval _ _ _ hu]

/-- The bullet scan of a concatenation of well-formed bullet lines yields
exactly the printed numbers, in order. -/
theorem bulletScan_bullets : ∀ (P : List IssueData),
    (∀ e ∈ P, entityWF e = true) →
    genScanFrom matchBullet none ((P.map bulletLine).flatten)
      = P.map (fun e => natChars e.number) := by
  intro P
  induction P with
  | nil => intro _; rfl
  | cons e P ih =>
    intro hwf
    have hwe : entityWF e = true := hwf e (by simp)
    have hwr : ∀ x ∈ P, entityWF x = true := fun x hx => hwf x (by simp [hx])
    simp only [List.map_cons, List.flatten_cons]
    rw [genScanFrom_match matchBullet matchBullet_rest_lt none _ _ _ _
      (matchBullet_bullet e ((P.map bulletLine).flatten) hwe)]
    have htl : '[' ∉ e.title := by
      have : titleWF e.title = true := by
        unfold entityWF at hwe
        simp only [Bool.and_eq_true] at hwe
        exact hwe.1
      unfold titleWF at this
      simp only [Bool.and_eq_true, Bool.not_eq_eq_eq_not, Bool.not_true] at this
      exact not_mem_of_contains_eq_false _ _ this.1.2
    have hj0 : (' ' :: '–' :: ' ' :: (e.title ++ '\n' :: (P.map bulletLine).flatten))
        = (' ' :: '–' :: ' ' :: (e.title ++ ['\n'])) ++ (P.map bulletLine).flatten := by
      simp
    rw [hj0, bulletScan_skip _ _ _ ?_ ?_ ?_, ih hwr]
    · intro hmem
      simp at hmem
      exact htl hmem
    · cases P with
      | nil => simp
      | cons e2 P2 =>
        simp only [List.map_cons, List.flatten_cons, bulletLine_shape e2, List.cons_append]
        simp
    · cases P with
      | nil => simp
      | cons e2 P2 =>
        simp only [List.map_cons, List.flatten_cons, bulletLine_shape e2, List.cons_append]
        simp

/-!
## Locating the dependents block
-/

/-- The ci-prefix test succeeds on the pattern itself. -/
theorem ciStartsWith_self_append (pat X : Str) : ciStartsWith pat (pat ++ X) = true := by
  induction pat with
  | nil => rfl
  | cons p ps ih => simp [ciStartsWith, ih]

/-- A successful ci-prefix test needs at least the pattern's length. -/
theorem ciStartsWith_length_le (pat s : Str) (h : ciStartsWith pat s = true) :
    pat.length ≤ s.length := by
  induction pat generalizing s with
  | nil => simp
  | cons p ps ih =>
    cases s with
    | nil => simp [ciStartsWith] at h
    | cons c cs =>
      simp only [ciStartsWith, Bool.and_eq_true] at h
      have := ih cs h.2
      simp only [List.length_cons]
      omega

/-- A successful ci-prefix test lowers both sides pointwise equal. -/
theorem ciStartsWith_agree (pat s : Str) (h : ciStartsWith pat s = true) :
    ∀ i, i < pat.length → (pat[i]?.map Char.toLower) = (s[i]?.map Char.toLower) := by
  induction pat generalizing s with
  | nil => intro i hi; simp at hi
  | cons p ps ih =>
    cases s with
    | nil => simp [ciStartsWith] at h
    | cons c cs =>
      simp only [ciStartsWith, Bool.and_eq_true, beq_iff_eq] at h
      intro i hi
      cases i with
      | zero => simp [h.1]
      | succ i =>
        simp only [List.getElem?_cons_succ]
        exact ih cs h.2 i (by simpa using hi)

/-- Pointwise lowered agreement gives a successful ci-prefix test. -/
theorem ciStartsWith_of_agree (pat s : Str) (hlen : pat.length ≤ s.length)
    (h : ∀ i, i < pat.length →
      (pat[i]?.map Char.toLower) = (s[i]?.map Char.toLower)) :
    ciStartsWith pat s = true := by
  induction pat generalizing s with
  | nil => rfl
  | cons p ps ih =>
    cases s with
    | nil => simp at hlen
    | cons c cs =>
      simp only [ciStartsWith, Bool.and_eq_true, beq_iff_eq]
      constructor
      · have := h 0 (by simp)
        simpa using this
      · refine ih cs (by simpa using hlen) (fun i hi => ?_)
        have := h (i + 1) (by simpa using hi)
        simpa using this

/-- A ci-match inside the right part of an append is a ci-containment. -/
theorem ciContains_append (needle x y : Str) (hy : y ≠ [])
    (h : ciStartsWith needle y = true) : ciContains needle (x ++ y) = true := by
  induction x with
  | nil =>
    cases y with
    | nil => exact absurd rfl hy
    | cons c cs => simpa [ciContains] using Or.inl h
  | cons a x ih =>
    rw [List.cons_append]
    unfold ciContains
    rw [ih]
    simp

/-- The empty string has no interior position. -/
theorem noPhraseStart_nil (k : Str) : noPhraseStart [] k := by
  intro x1 c x2 h
  exact absurd h (by simp)

/-- `noPhraseStart` composes over appends. -/
theorem noPhraseStart_append (a b k : Str) (ha : noPhraseStart a (b ++ k))
    (hb : noPhraseStart b k) : noPhraseStart (a ++ b) k := by
  intro x1 c x2 heq
  rcases List.append_eq_append_iff.mp heq with ⟨w, hw1, hw2⟩ | ⟨w, hw1, hw2⟩
  · exact hb w c x2 hw2
  · cases w with
    | nil =>
      apply hb [] c x2
      simpa using hw2.symm
    | cons w0 w2 =>
      have hc : c = w0 ∧ x2 = w2 ++ b := by
        have := hw2
        simp only [List.cons_append] at this
        exact ⟨(List.cons.inj this).1, (List.cons.inj this).2⟩
      have := ha x1 c w2 (by rw [hw1, hc.1])
      rw [hc.2, List.append_assoc]
      exact this

/-- Soundness of the window-mismatch certificate. -/
theorem windowMismatch_sound (t : Str) (h : windowMismatch t = true) (k : Str) :
    ciStartsWith dependentsPhrase (t ++ k) = false := by
  unfold windowMismatch at h
  rw [List.any_eq_true] at h
  obtain ⟨i, hi, hne⟩ := h
  rw [List.mem_range] at hi
  cases hcs : ciStartsWith dependentsPhrase (t ++ k)
  · rfl
  exfalso
  have hag := ciStartsWith_agree _ _ hcs i (by omega)
  have ht : (t ++ k)[i]? = t[i]? := by
    rw [List.getElem?_append]
    rw [if_pos (by omega)]
  rw [ht] at hag
  simp only [Bool.not_eq_eq_eq_not, Bool.not_true, beq_eq_false_iff_ne, ne_eq] at hne
  exact hne hag

/-- A clean concrete region starts no phrase match, whatever follows it. -/
theorem noPhraseStart_of_regionClean (F : Str) (h : regionCleanB F = true) (k : Str) :
    noPhraseStart F k := by
  intro x1 c x2 heq
  unfold regionCleanB at h
  rw [List.all_eq_true] at h
  have hp : x1.length < F.length := by
    rw [heq, List.length_append, List.length_cons]
    omega
  have hw := h x1.length (List.mem_range.mpr hp)
  have hdrop : F.drop x1.length = c :: x2 := by
    rw [heq]
    exact List.drop_left x1 (c :: x2)
  rw [hdrop] at hw
  have := windowMismatch_sound _ hw k
  simpa using this

/-- A digit run starts no phrase match. -/
theorem noPhraseStart_digits (n : Nat) (k : Str) : noPhraseStart (natChars n) k := by
  intro x1 c x2 heq
  have hmem : c ∈ natChars n := by rw [heq]; simp
  have hc : c.isDigit = true := by
    have hall := natChars_all_digits n
    rw [List.all_eq_true] at hall
    exact hall c hmem
  cases hcs : ciStartsWith dependentsPhrase (c :: (x2 ++ k))
  · rfl
  exfalso
  have hag := ciStartsWith_agree _ _ hcs 0 (by decide)
  rw [show dependentsPhrase[0]? = some 't' from rfl] at hag
  simp only [List.getElem?_cons_zero, Option.map_some'] at hag
  have h1 : c.toLower = 't' := by
    have := Option.some.inj hag
    rw [← this]
    rfl
  have h2 : c.toLower = c :=
    toLower_eq_self_of_lt65 c (by have := isDigit_toNat c hc; omega)
  rw [h2] at h1
  subst h1
  simp at hc

/-- A well-formed URL followed by its closing parenthesis starts no phrase
match: the phrase's fourth character is a space, which neither a URL
character nor the parenthesis can lower to within the first four
positions. -/
theorem noPhraseStart_url (u : Str) (hwf : urlWF u = true) (k : Str) :
    noPhraseStart u (')' :: k) := by
  intro x1 c x2 heq
  have hnsp : ∀ d ∈ u, d ≠ ' ' := by
    intro d hd
    have : u.contains ' ' = false := by
      unfold urlWF at hwf
      simp only [Bool.and_eq_true, Bool.not_eq_eq_eq_not, Bool.not_true] at hwf
      exact hwf.2
    exact fun he => (not_mem_of_contains_eq_false u ' ' this) (he ▸ hd)
  cases hcs : ciStartsWith dependentsPhrase (c :: (x2 ++ ')' :: k))
  · rfl
  exfalso
  have hx2 : ∀ d ∈ x2, d ∈ u := by
    intro d hd
    rw [heq]
    simp [hd]
  match x2 with
  | [] =>
    have hag := ciStartsWith_agree _ _ hcs 1 (by decide)
    rw [show dependentsPhrase[1]? = some 'h' from rfl] at hag
    simp only [List.getElem?_cons_succ, List.nil_append, List.getElem?_cons_zero,
      Option.map_some'] at hag
    exact absurd (Option.some.inj hag) (by decide)
  | [d1] =>
    have hag := ciStartsWith_agree _ _ hcs 2 (by decide)
    rw [show dependentsPhrase[2]? = some 'e' from rfl] at hag
    simp only [List.getElem?_cons_succ, List.cons_append, List.nil_append,
      List.getElem?_cons_zero, Option.map_some'] at hag
    exact absurd (Option.some.inj hag) (by decide)
  | [d1, d2] =>
    have hag := ciStartsWith_agree _ _ hcs 3 (by decide)
    rw [show dependentsPhrase[3]? = some ' ' from rfl] at hag
    simp only [List.getElem?_cons_succ, List.cons_append, List.nil_append,
      List.getElem?_cons_zero, Option.map_some'] at hag
    exact absurd (Option.some.inj hag) (by decide)
  | d1 :: d2 :: d3 :: x3 =>
    have hag := ciStartsWith_agree _ _ hcs 3 (by decide)
    rw [show dependentsPhrase[3]? = some ' ' from rfl] at hag
    simp only [List.getElem?_cons_succ, List.cons_append,
      List.getElem?_cons_zero, Option.map_some'] at hag
    have hd3 : d3.toLower = ' ' := (Option.some.inj hag).symm
    have : d3 = ' ' := toLower_eq_nonletter d3 ' ' (by decide) hd3
    exact hnsp d3 (hx2 d3 (by simp)) this

/-- Those phrase positions that lower to a newline: only the final one. -/
theorem dependentsPhrase_lower_nl :
    ((List.range 25).all (fun i =>
      !((dependentsPhrase[i]?.map Char.toLower) == some '\n'))) = true := by decide

/-- A newline-free title that does not ci-contain the phrase core,
followed by its bullet newline, starts no phrase match. -/
theorem noPhraseStart_title (t : Str) (h1 : t.contains '\n' = false)
    (h3 : ciContains phraseCore t = false) (k : Str) :
    noPhraseStart (t ++ ['\n']) k := by
  have hnl : ∀ d ∈ t, d ≠ '\n' := by
    intro d hd he
    exact (not_mem_of_contains_eq_false t '\n' h1) (he ▸ hd)
  intro x1 c x2 heq
  cases hcs : ciStartsWith dependentsPhrase (c :: (x2 ++ k))
  · rfl
  exfalso
  have hag0 := ciStartsWith_agree _ _ hcs 0 (by decide)
  rw [show dependentsPhrase[0]? = some 't' from rfl] at hag0
  simp only [List.getElem?_cons_zero, Option.map_some'] at hag0
  rcases List.append_eq_append_iff.mp heq with ⟨w, hw1, hw2⟩ | ⟨w, hw1, hw2⟩
  · -- the split lies at or after the newline: c = '\n'
    have hw : w = [] ∧ c = '\n' ∧ x2 = [] := by
      cases w with
      | nil =>
        have h0 := hw2.symm
        simp only [List.nil_append] at h0
        exact ⟨rfl, (List.cons.inj h0).1, (List.cons.inj h0).2⟩
      | cons w0 w2 =>
        exfalso
        have hlen2 := congrArg List.length hw2
        simp only [List.length_append, List.length_cons, List.length_nil] at hlen2
        omega
    rw [hw.2.1] at hag0
    exact absurd (Option.some.inj hag0) (by decide)
  · cases w with
    | nil =>
      have hc : c = '\n' := by
        have := hw2
        simp only [List.nil_append] at this
        exact (List.cons.inj this.symm).1.symm
      rw [hc] at hag0
      exact absurd (Option.some.inj hag0) (by decide)
    | cons w0 w2 =>
      -- c starts inside the title: ts := c :: w2 is a suffix of t
      have hcw : c = w0 ∧ x2 = w2 ++ ['\n'] := by
        have := hw2
        simp only [List.cons_append] at this
        exact ⟨(List.cons.inj this).1, (List.cons.inj this).2⟩
      have hts : t = x1 ++ c :: w2 := by rw [hw1, hcw.1]
      have hscan : c :: (x2 ++ k) = (c :: w2) ++ ('\n' :: k) := by
        rw [hcw.2]
        simp
      rw [hscan] at hcs
      by_cases hlen : 26 ≤ (c :: w2).length
      · -- the phrase's final newline would land inside the title
        have hag := ciStartsWith_agree _ _ hcs 25 (by decide)
        rw [show dependentsPhrase[25]? = some '\n' from rfl] at hag
        have hidx : ((c :: w2) ++ ('\n' :: k))[25]? = (c :: w2)[25]? := by
          rw [List.getElem?_append, if_pos (by omega)]
        rw [hidx] at hag
        have hd : ∃ d, (c :: w2)[25]? = some d := by
          have : 25 < (c :: w2).length := by omega
          exact ⟨(c :: w2).get ⟨25, this⟩, List.getElem?_eq_getElem this⟩
        obtain ⟨d, hdx⟩ := hd
        rw [hdx] at hag
        simp only [Option.map_some'] at hag
        have hdt : d ∈ t := by
          rw [hts]
          have := List.getElem?_mem hdx
          simp [this]
        exact hnl d hdt (toLower_eq_nonletter d '\n' (by decide) (Option.some.inj hag).symm)
      · -- the bullet newline lands inside the phrase: only position 25 fits
        have hlts : (c :: w2).length < 26 := by omega
        have hag := ciStartsWith_agree _ _ hcs (c :: w2).length (by simpa using hlts)
        have hidx : ((c :: w2) ++ ('\n' :: k))[(c :: w2).length]? = some '\n' := by
          rw [List.getElem?_append, if_neg (by omega)]
          simp
        rw [hidx] at hag
        have h25 : (c :: w2).length = 25 := by
          by_contra hne
          have hall := dependentsPhrase_lower_nl
          rw [List.all_eq_true] at hall
          have := hall (c :: w2).length (List.mem_range.mpr (by omega))
          rw [hag] at this
          simp at this
        -- the 25 preceding characters ci-match the phrase core inside the title
        have hcore : ciStartsWith phraseCore (c :: w2) = true := by
          apply ciStartsWith_of_agree
          · rw [h25]
            decide
          · intro i hi
            have hi25 : i < 25 := by
              have : phraseCore.length = 25 := by decide
              omega
            have hagi := ciStartsWith_agree _ _ hcs i (by
              have : dependentsPhrase.length = 26 := by decide
              omega)
            have hco : phraseCore[i]? = dependentsPhrase[i]? := by
              rw [show dependentsPhrase = phraseCore ++ ['\n'] from rfl,
                List.getElem?_append, if_pos (by
                  have : phraseCore.length = 25 := by decide
                  omega)]
            have hsi : ((c :: w2) ++ ('\n' :: k))[i]? = (c :: w2)[i]? := by
              rw [List.getElem?_append, if_pos (by omega)]
            rw [hco, ← hsi]
            exact hagi
        have : ciContains phraseCore t = true := by
          rw [hts]
          exact ciContains_append phraseCore x1 (c :: w2) (by simp) hcore
        rw [this] at h3
        exact absurd h3 (by simp)

/-- The concrete scaffold pieces of a bullet line are clean. -/
theorem bullet_pieces_clean :
    regionCleanB (("- [PR #").data) = true ∧
    regionCleanB (("- [Issue #").data) = true ∧
    regionCleanB (("](").data) = true ∧
    regionCleanB ((") – ").data) = true := by decide

/-- A well-formed bullet line starts no phrase match, whatever follows. -/
theorem noPhraseStart_bullet (e : IssueData) (hwf : entityWF e = true) (k : Str) :
    noPhraseStart (bulletLine e) k := by
  unfold entityWF at hwf
  simp only [Bool.and_eq_true] at hwf
  have htw : titleWF e.title = true := hwf.1
  have huw : urlWF e.html_url = true := hwf.2
  unfold titleWF at htw
  simp only [Bool.and_eq_true, Bool.not_eq_eq_eq_not, Bool.not_true] at htw
  have hX4 : ∀ k2, noPhraseStart (((") – ").data) ++ (e.title ++ ['\n'])) k2 := by
    intro k2
    refine noPhraseStart_append _ _ _
      (noPhraseStart_of_regionClean _ bullet_pieces_clean.2.2.2 _) ?_
    exact noPhraseStart_title e.title htw.1.1 htw.2 k2
  have hX3 : ∀ k2, noPhraseStart (e.html_url
      ++ ((((") – ").data) ++ (e.title ++ ['\n'])))) k2 := by
    intro k2
    refine noPhraseStart_append _ _ _ ?_ (hX4 k2)
    have hsh : ((((") – ").data) ++ (e.title ++ ['\n'])) ++ k2)
        = ')' :: ((' ' :: '–' :: ' ' :: (e.title ++ ['\n'])) ++ k2) := by
      simp
    rw [hsh]
    exact noPhraseStart_url e.html_url huw _
  have hX2 : ∀ k2, noPhraseStart ((("](").data)
      ++ (e.html_url ++ ((((") – ").data) ++ (e.title ++ ['\n']))))) k2 := by
    intro k2
    exact noPhraseStart_append _ _ _
      (noPhraseStart_of_regionClean _ bullet_pieces_clean.2.2.1 _) (hX3 k2)
  have hX1 : ∀ k2, noPhraseStart (natChars e.number ++ ((("](").data)
      ++ (e.html_url ++ ((((") – ").data) ++ (e.title ++ ['\n'])))))) k2 := by
    intro k2
    exact noPhraseStart_append _ _ _ (noPhraseStart_digits _ _) (hX2 k2)
  have hsh : bulletLine e
      = (if isPullRequest e then ("- [PR #").data else ("- [Issue #").data)
        ++ (natChars e.number ++ ((("](").data)
          ++ (e.html_url ++ ((((") – ").data) ++ (e.title ++ ['\n'])))))) := by
    unfold bulletLine
    cases isPullRequest e <;> simp [List.append_assoc]
  rw [hsh]
  refine noPhraseStart_append _ _ _ ?_ (hX1 k)
  cases isPullRequest e
  · exact noPhraseStart_of_regionClean _ bullet_pieces_clean.2.1 _
  · exact noPhraseStart_of_regionClean _ bullet_pieces_clean.1 _

/-- A list of well-formed bullet lines starts no phrase match. -/
theorem noPhraseStart_bullets : ∀ (D : List IssueData),
    (∀ e ∈ D, entityWF e = true) → ∀ k,
    noPhraseStart ((D.map bulletLine).flatten) k := by
  intro D
  induction D with
  | nil => intro _ k; exact noPhraseStart_nil k
  | cons e D ih =>
    intro hwf k
    simp only [List.map_cons, List.flatten_cons]
    exact noPhraseStart_append _ _ _
      (noPhraseStart_bullet e (hwf e (by simp)) _)
      (ih (fun x hx => hwf x (by simp [hx])) k)

/-!
## The lazy content of the block pattern
-/

/-- `isPrefixOf` succeeds on the pattern itself. -/
theorem isPrefixOf_self_append (l x : Str) : List.isPrefixOf l (l ++ x) = true := by
  induction l with
  | nil => simp [List.isPrefixOf]
  | cons a l ih => simp [List.isPrefixOf, ih]

/-- No position strictly inside `x` starts an occurrence of the section
delimiter in `x ++ k`. -/
def noSepStart (x k : Str) : Prop :=
  ∀ x1 c x2, x = x1 ++ c :: x2 → sepLit.isPrefixOf (c :: (x2 ++ k)) = false

/-- `noSepStart` composes over appends. -/
theorem noSepStart_append (a b k : Str) (ha : noSepStart a (b ++ k))
    (hb : noSepStart b k) : noSepStart (a ++ b) k := by
  intro x1 c x2 heq
  rcases List.append_eq_append_iff.mp heq with ⟨w, hw1, hw2⟩ | ⟨w, hw1, hw2⟩
  · exact hb w c x2 hw2
  · cases w with
    | nil =>
      apply hb [] c x2
      simpa using hw2.symm
    | cons w0 w2 =>
      have hc : c = w0 ∧ x2 = w2 ++ b := by
        have := hw2
        simp only [List.cons_append] at this
        exact ⟨(List.cons.inj this).1, (List.cons.inj this).2⟩
      have := ha x1 c w2 (by rw [hw1, hc.1])
      rw [hc.2, List.append_assoc]
      exact this

/-- The delimiter starts with a newline, so it cannot start at any other
character. -/
theorem sep_isPrefixOf_false (c : Char) (s : Str) (hc : c ≠ '\n') :
    sepLit.isPrefixOf (c :: s) = false := by
  show (('\n' == c) && (("---\n").data.isPrefixOf s)) = false
  rw [beq_eq_false_iff_ne.mpr (Ne.symm hc)]
  rfl

/-- `sepScanLen` passes through a region without delimiter starts. -/
theorem sepScanLen_append (C R : Str) (h : noSepStart C R) :
    sepScanLen (C ++ R) = C.length + sepScanLen R := by
  induction C with
  | nil => simp
  | cons c C ih =>
    rw [List.cons_append]
    rw [show sepScanLen (c :: (C ++ R))
      = if sepLit.isPrefixOf (c :: (C ++ R)) then 0 else 1 + sepScanLen (C ++ R) from rfl]
    rw [h [] c C rfl]
    simp only [Bool.false_eq_true, if_false, List.length_cons]
    rw [ih (fun x1 a x2 hx => h (c :: x1) a x2 (by rw [hx]; rfl))]
    omega

/-- `sepScanLen` stops at the delimiter. -/
theorem sepScanLen_at_sep (R : Str) : sepScanLen (sepLit ++ R) = 0 := by
  have h1 : sepScanLen (sepLit ++ R)
      = sepScanLen ('\n' :: ((("---\n").data) ++ R)) := rfl
  rw [h1]
  unfold sepScanLen
  rw [show ('\n' :: ((("---\n").data) ++ R)) = sepLit ++ R from rfl,
    isPrefixOf_self_append]
  rfl

/-- The interior of a bullet line has no newline; its only newline is the
final one. -/
theorem bulletLine_inner (e : IssueData) (hwf : entityWF e = true) :
    ∃ inner, bulletLine e = inner ++ ['\n'] ∧ '\n' ∉ inner := by
  unfold entityWF at hwf
  simp only [Bool.and_eq_true] at hwf
  have htw := hwf.1
  have huw := hwf.2
  unfold titleWF at htw
  unfold urlWF at huw
  simp only [Bool.and_eq_true, Bool.not_eq_eq_eq_not, Bool.not_true] at htw huw
  refine ⟨("- [").data ++ (if isPullRequest e then ("PR").data else ("Issue").data)
    ++ (" #").data ++ natChars e.number ++ ("](").data ++ e.html_url
    ++ (") – ").data ++ e.title, ?_, ?_⟩
  · unfold bulletLine
    simp [List.append_assoc]
  · intro hmem
    simp only [List.mem_append] at hmem
    rcases hmem with (((((((h | h) | h) | h) | h) | h) | h) | h)
    · exact absurd h (by decide)
    · cases hpr : isPullRequest e <;> rw [hpr] at h <;> exact absurd h (by decide)
    · exact absurd h (by decide)
    · have hall := natChars_all_digits e.number
      rw [List.all_eq_true] at hall
      have := hall '\n' h
      simp at this
    · exact absurd h (by decide)
    · exact (not_mem_of_contains_eq_false _ _ huw.1.2) h
    · exact absurd h (by decide)
    · exact (not_mem_of_contains_eq_false _ _ htw.1.1) h

/-- Bah: membership split helper for the eight-piece interior. -/
theorem noSepStart_bullet (e : IssueData) (hwf : entityWF e = true) (k : Str)
    (hk : sepLit.isPrefixOf ('\n' :: k) = false) : noSepStart (bulletLine e) k := by
  obtain ⟨inner, hin, hnl⟩ := bulletLine_inner e hwf
  rw [hin]
  intro x1 c x2 heq
  rcases List.append_eq_append_iff.mp heq with ⟨w, hw1, hw2⟩ | ⟨w, hw1, hw2⟩
  · have hw : c = '\n' ∧ x2 = [] := by
      cases w with
      | nil =>
        have h0 := hw2.symm
        simp only [List.nil_append] at h0
        exact ⟨(List.cons.inj h0).1, (List.cons.inj h0).2⟩
      | cons w0 w2 =>
        exfalso
        have hlen2 := congrArg List.length hw2
        simp only [List.length_append, List.length_cons, List.length_nil] at hlen2
        omega
    rw [hw.1, hw.2]
    simpa using hk
  · cases w with
    | nil =>
      have hc : c = '\n' ∧ x2 = [] := by
        have h0 := hw2
        simp only [List.nil_append] at h0
        exact ⟨(List.cons.inj h0).1, (List.cons.inj h0).2⟩
      rw [hc.1, hc.2]
      simpa using hk
    | cons w0 w2 =>
      have hc : c = w0 := by
        have := hw2
        simp only [List.cons_append] at this
        exact (List.cons.inj this).1
      have hcin : c ∈ inner := by
        rw [hw1, hc]
        simp
      exact sep_isPrefixOf_false c _ (fun he => hnl (he ▸ hcin))


/-- The delimiter does not start at a newline followed by a bullet dash
and space. -/
theorem sep_not_prefix_dash_space (s : Str) :
    sepLit.isPrefixOf ('\n' :: '-' :: ' ' :: s) = false := rfl

/-- The delimiter does not start at a doubled newline. -/
theorem sep_not_prefix_nl_nl (s : Str) :
    sepLit.isPrefixOf ('\n' :: '\n' :: s) = false := rfl

/-- The empty region starts no delimiter occurrence. -/
theorem noSepStart_nil (k : Str) : noSepStart [] k := by
  intro x1 c x2 h
  exact absurd h (by simp)

/-- A list of well-formed bullet lines contains no delimiter start, as
long as the continuation does not complete one at the final newline. -/
theorem noSepStart_bulletList : ∀ (P : List IssueData),
    (∀ e ∈ P, entityWF e = true) → ∀ k,
    sepLit.isPrefixOf ('\n' :: k) = false →
    noSepStart ((P.map bulletLine).flatten) k := by
  intro P
  induction P with
  | nil => intro _ k _; exact noSepStart_nil k
  | cons e P ih =>
    intro hwf k hk
    simp only [List.map_cons, List.flatten_cons]
    refine noSepStart_append _ _ _ ?_ (ih (fun x hx => hwf x (by simp [hx])) k hk)
    apply noSepStart_bullet e (hwf e (by simp))
    cases P with
    | nil => simpa using hk
    | cons e2 P2 =>
      simp only [List.map_cons, List.flatten_cons, bulletLine_shape e2, List.cons_append]
      exact sep_not_prefix_dash_space _

/-- One unfolding step of the block scanner. -/
theorem findBlockAux_cons (c : Char) (t : Str) :
    findBlockAux (c :: t)
      = if ciStartsWith dependentsPhrase (c :: t) then
          some ((c :: t).take
            (dependentsPhrase.length + sepScanLen ((c :: t).drop dependentsPhrase.length)))
        else findBlockAux t := rfl

/-- The block scanner skips a region that starts no phrase match. -/
theorem findBlockAux_skip (A k : Str) (h : noPhraseStart A k) :
    findBlockAux (A ++ k) = findBlockAux k := by
  induction A with
  | nil => simp
  | cons c t ih =>
    rw [List.cons_append, findBlockAux_cons, h [] c t rfl]
    simp only [Bool.false_eq_true, if_false]
    exact ih (fun x1 c2 x2 hx => h (c :: x1) c2 x2 (by rw [hx]; rfl))

/-- The block scanner at the phrase itself: the match is the phrase plus
the lazy content up to the delimiter (or the end). -/
theorem findBlockAux_at_phrase (C : Str) :
    findBlockAux (dependentsPhrase ++ C)
      = some (dependentsPhrase ++ C.take (sepScanLen C)) := by
  rw [show dependentsPhrase ++ C
      = 't' :: ((("he following dependents:\n").data) ++ C) from rfl, findBlockAux_cons]
  rw [show ('t' :: ((("he following dependents:\n").data) ++ C))
      = dependentsPhrase ++ C from rfl]
  rw [ciStartsWith_self_append]
  simp only [if_true]
  rw [List.drop_left, List.take_append]

/-- Transport of `noPhraseStart` along a list identity. -/
theorem noPhraseStart_of_eq (x y k : Str) (hxy : x = y) (h : noPhraseStart y k) :
    noPhraseStart x k := hxy ▸ h

/-- Cleanliness of the signature region of the comment template: it
cannot start a case-insensitive occurrence of the section phrase,
whatever follows it. -/
theorem clean_sig_nl : regionCleanB (SIGNATURE ++ ("\n").data) = true := by decide

/-- Cleanliness of the section delimiter region. -/
theorem clean_sep : regionCleanB sepLit = true := by decide

set_option maxRecDepth 10000

/-- Cleanliness of the empty-dependencies section for a pull request. -/
theorem clean_deps_resolved_pr :
    regionCleanB (("## ✅ All Dependencies Resolved.\n\nThis Pull Request has no blocking dependencies.").data) = true := by decide

/-- Cleanliness of the empty-dependencies section for an issue. -/
theorem clean_deps_resolved_issue :
    regionCleanB (("## ✅ All Dependencies Resolved.\n\nThis Issue has no blocking dependencies.").data) = true := by decide

/-- Cleanliness of the non-empty-dependencies banner for a pull request. -/
theorem clean_deps_found_pr :
    regionCleanB (("## ⚠️ Blocking Dependencies Found:\n\nThis Pull Request should not be merged until the following dependencies are resolved:\n\n").data) = true := by decide

/-- Cleanliness of the non-empty-dependencies banner for an issue. -/
theorem clean_deps_found_issue :
    regionCleanB (("## ⚠️ Blocking Dependencies Found:\n\nThis Issue should not be resolved until the following dependencies are resolved:\n\n").data) = true := by decide

/-- Cleanliness of the non-empty-dependents banner, up to the section
phrase, for a pull request. -/
theorem clean_dependents_banner_pr :
    regionCleanB (("## ⚠️ Blocked Dependents Found:\n\nThis Pull Request should be merged to unblock ").data) = true := by decide

/-- Cleanliness of the non-empty-dependents banner, up to the section
phrase, for an issue. -/
theorem clean_dependents_banner_issue :
    regionCleanB (("## ⚠️ Blocked Dependents Found:\n\nThis Issue should be resolved to unblock ").data) = true := by decide

/-- Cleanliness of the empty-dependents section for a pull request. -/
theorem clean_dependents_resolved_pr :
    regionCleanB (("## ✅ All Dependents Resolved.\n\nThis Pull Request blocks no dependents.").data) = true := by decide

/-- Cleanliness of the empty-dependents section for an issue. -/
theorem clean_dependents_resolved_issue :
    regionCleanB (("## ✅ All Dependents Resolved.\n\nThis Issue blocks no dependents.").data) = true := by decide

/-- Cleanliness of the delimiter-plus-trailer region. -/
theorem clean_sep_trailer1 :
    regionCleanB (("\n---\n*This is an automated message. Please resolve the above dependencies and dependents, if any.*").data) = true := by decide

/-- Cleanliness of the final do-not-edit region. -/
theorem clean_trailer2 :
    regionCleanB (("\n<!-- DO NOT EDIT THIS COMMENT! IT WILL BREAK THE DEPENDENCY CHECKER. -->").data) = true := by decide

/-- `noPhraseStart` under append, for regions clean under every
continuation. -/
theorem noPhraseStart_app2 (a b : Str) (ha : ∀ k, noPhraseStart a k)
    (hb : ∀ k, noPhraseStart b k) : ∀ k, noPhraseStart (a ++ b) k :=
  fun k => noPhraseStart_append a b k (ha _) (hb _)

/-- The dependencies section starts no phrase match for the two concrete
issue-type strings and well-formed dependency entities. -/
theorem noPhraseStart_depsMsg (issueType : Str)
    (hty : issueType = pullRequestType ∨ issueType = ("Issue").data)
    (D : List IssueData) (hD : ∀ e ∈ D, entityWF e = true) :
    ∀ k, noPhraseStart (createDependenciesMessage issueType D) k := by
  unfold createDependenciesMessage
  cases hD0 : D.isEmpty
  · simp only [Bool.false_eq_true, if_false]
    refine noPhraseStart_app2 _ _ ?_ (fun k2 => noPhraseStart_bullets D hD k2)
    rcases hty with h | h <;> rw [h] <;> intro k2
    · exact noPhraseStart_of_eq _ _ _ (by decide)
        (noPhraseStart_of_regionClean _ clean_deps_found_pr k2)
    · exact noPhraseStart_of_eq _ _ _ (by decide)
        (noPhraseStart_of_regionClean _ clean_deps_found_issue k2)
  · simp only [if_true]
    rcases hty with h | h <;> rw [h] <;> intro k2
    · exact noPhraseStart_of_eq _ _ _ (by decide)
        (noPhraseStart_of_regionClean _ clean_deps_resolved_pr k2)
    · exact noPhraseStart_of_eq _ _ _ (by decide)
        (noPhraseStart_of_regionClean _ clean_deps_resolved_issue k2)

/-- Folding map insertions over fresh keys appends the new entries in
order. -/
theorem foldl_mapInsert_fresh : ∀ (tags : List DependencyTag)
    (m : List (Str × DependencyTag)),
    (∀ t ∈ tags, m.any (fun p => p.1 == tagKey t) = false) →
    ((tags.map tagKey).Nodup) →
    tags.foldl (fun m t => mapInsert m (tagKey t) t) m
      = m ++ tags.map (fun t => (tagKey t, t)) := by
  intro tags
  induction tags with
  | nil => intro m _ _; simp
  | cons t ts ih =>
    intro m hfresh hnd
    simp only [List.map_cons] at hnd ⊢
    simp only [List.foldl_cons]
    have h1 : mapInsert m (tagKey t) t = m ++ [(tagKey t, t)] := by
      unfold mapInsert
      rw [hfresh t (by simp)]
      simp
    rw [h1, ih (m ++ [(tagKey t, t)]) ?_ hnd.of_cons]
    · simp
    · intro u hu
      rw [List.any_append]
      simp only [List.any_cons, List.any_nil, Bool.or_false]
      rw [hfresh u (List.mem_cons_of_mem _ hu)]
      simp only [Bool.false_or]
      refine beq_eq_false_iff_ne.mpr ?_
      intro he
      exact (List.nodup_cons.mp hnd).1 (he ▸ List.mem_map_of_mem tagKey hu)

/-- Deduplication is the identity on a list with pairwise distinct keys. -/
theorem dedupTags_nodup (tags : List DependencyTag)
    (h : ((tags.map tagKey).Nodup)) : dedupTags tags = tags := by
  unfold dedupTags
  rw [foldl_mapInsert_fresh tags [] (fun t _ => rfl) h]
  simp only [List.nil_append, List.map_map]
  rw [show ((fun p : Str × DependencyTag => p.2) ∘ fun t => (tagKey t, t)) = id from rfl]
  exact List.map_id tags

/-- The key of an intra-repo tag determines its number. -/
theorem tagKey_mk_injective (o r : Str) :
    Function.Injective (fun n => tagKey (DependencyTag.mk o r n)) := by
  intro m n h
  exact natChars_injective _ _ (List.append_cancel_left h)

/-- Distinct numbers give distinct keys for context-resolved tags. -/
theorem tagKeys_nodup (ctx : RepoRef) (P : List IssueData)
    (hnum : (P.map IssueData.number).Nodup) :
    (((P.map (fun e => DependencyTag.mk ctx.owner ctx.repo e.number)).map tagKey).Nodup) := by
  rw [List.map_map]
  have h2 := hnum.map (tagKey_mk_injective ctx.owner ctx.repo)
  rw [List.map_map] at h2
  exact h2


/-- `createDependentsMessage` on an empty dependent list. -/
theorem createDependentsMessage_nil (issueType : Str) :
    createDependentsMessage issueType []
      = ("## ✅ All Dependents Resolved.\n\nThis ").data ++ issueType
        ++ (" blocks no dependents.").data := rfl

/-- `createDependentsMessage` on a non-empty dependent list. -/
theorem createDependentsMessage_cons (issueType : Str) (p0 : IssueData) (P : List IssueData) :
    createDependentsMessage issueType (p0 :: P)
      = ("## ⚠️ Blocked Dependents Found:\n\nThis ").data ++ issueType
        ++ (" should be ").data
        ++ (if issueType == pullRequestType then ("merged").data else ("resolved").data)
        ++ (" to unblock the following dependents:\n\n").data
        ++ ((p0 :: P).map bulletLine).flatten := rfl

/-- **C4.**  Round-trip of the comment grammar: for a comment body
rendered by `createCommentBody` from dependency entities `D` and
dependent entities `P` — with the issue type one of the two strings the
action derives from the event, the entities' titles and URLs well-formed
for the bullet grammar, and the dependents' numbers pairwise distinct —
the dependents extraction `getDependentsTags` recovers exactly the
context-resolved references of `P`, in order, with their numbers; in
particular nothing from the dependencies section `D` is recovered. -/
theorem c4_round_trip (ctx : RepoRef) (issueType : Str) (D P : List IssueData)
    (hty : issueType = pullRequestType ∨ issueType = ("Issue").data)
    (hD : ∀ e ∈ D, entityWF e = true) (hP : ∀ e ∈ P, entityWF e = true)
    (hnum : (P.map IssueData.number).Nodup) :
    getDependentsTags ctx (createCommentBody issueType D P)
      = P.map (fun e => DependencyTag.mk ctx.owner ctx.repo e.number) := by
  cases P with
  | nil =>
    have hdent : ∀ k2, noPhraseStart (("## ✅ All Dependents Resolved.\n\nThis ").data
        ++ issueType ++ (" blocks no dependents.").data) k2 := by
      rcases hty with h | h <;> rw [h] <;> intro k2
      · exact noPhraseStart_of_eq _ _ _ (by decide)
          (noPhraseStart_of_regionClean _ clean_dependents_resolved_pr k2)
      · exact noPhraseStart_of_eq _ _ _ (by decide)
          (noPhraseStart_of_regionClean _ clean_dependents_resolved_issue k2)
    have hA0 : ∀ k, noPhraseStart (createCommentBody issueType D []) k := by
      unfold createCommentBody
      rw [createDependentsMessage_nil]
      exact noPhraseStart_app2 _ _ (noPhraseStart_app2 _ _
        (noPhraseStart_app2 _ _ (noPhraseStart_app2 _ _ (noPhraseStart_app2 _ _
          (fun k2 => noPhraseStart_of_regionClean _ clean_sig_nl k2)
          (noPhraseStart_depsMsg issueType hty D hD))
          (fun k2 => noPhraseStart_of_regionClean _ clean_sep k2))
        hdent)
        (fun k2 => noPhraseStart_of_regionClean _ clean_sep_trailer1 k2))
        (fun k2 => noPhraseStart_of_regionClean _ clean_trailer2 k2)
    have h0 : findBlockAux (createCommentBody issueType D []) = none := by
      have h1 := findBlockAux_skip (createCommentBody issueType D []) [] (hA0 [])
      rw [List.append_nil] at h1
      exact h1
    simp only [getDependentsTags, findDependentsBlock]
    rw [h0]
    rfl
  | cons p0 P2 =>
    have hbanner : ∀ k2, noPhraseStart ((("## ⚠️ Blocked Dependents Found:\n\nThis ").data
        ++ (issueType ++ ((" should be ").data
        ++ ((if issueType == pullRequestType then ("merged").data else ("resolved").data)
          ++ (" to unblock ").data))))) k2 := by
      rcases hty with h | h <;> rw [h] <;> intro k2
      · exact noPhraseStart_of_eq _ _ _ (by decide)
          (noPhraseStart_of_regionClean _ clean_dependents_banner_pr k2)
      · exact noPhraseStart_of_eq _ _ _ (by decide)
          (noPhraseStart_of_regionClean _ clean_dependents_banner_issue k2)
    have hA : ∀ k2, noPhraseStart ((SIGNATURE ++ ("\n").data)
        ++ (createDependenciesMessage issueType D ++ (("\n---\n").data
        ++ ((("## ⚠️ Blocked Dependents Found:\n\nThis ").data
        ++ (issueType ++ ((" should be ").data
        ++ ((if issueType == pullRequestType then ("merged").data else ("resolved").data)
          ++ (" to unblock ").data)))))))) k2 :=
      noPhraseStart_app2 _ _
        (fun k2 => noPhraseStart_of_regionClean _ clean_sig_nl k2)
        (noPhraseStart_app2 _ _ (noPhraseStart_depsMsg issueType hty D hD)
          (noPhraseStart_app2 _ _
            (fun k2 => noPhraseStart_of_regionClean _ clean_sep k2) hbanner))
    have hbody : createCommentBody issueType D (p0 :: P2)
        = ((SIGNATURE ++ ("\n").data)
          ++ (createDependenciesMessage issueType D ++ (("\n---\n").data
          ++ ((("## ⚠️ Blocked Dependents Found:\n\nThis ").data
          ++ (issueType ++ ((" should be ").data
          ++ ((if issueType == pullRequestType then ("merged").data else ("resolved").data)
            ++ (" to unblock ").data))))))))
          ++ (dependentsPhrase ++ ('\n' :: ((((p0 :: P2).map bulletLine).flatten)
            ++ (sepLit ++ ((("*This is an automated message. Please resolve the above dependencies and dependents, if any.*").data)
              ++ (("\n<!-- DO NOT EDIT THIS COMMENT! IT WILL BREAK THE DEPENDENCY CHECKER. -->").data)))))) := by
      unfold createCommentBody
      rw [createDependentsMessage_cons]
      rw [show (" to unblock the following dependents:\n\n").data
          = (" to unblock ").data ++ (dependentsPhrase ++ ('\n' :: ([] : Str))) from by decide]
      rw [show ("\n---\n*This is an automated message. Please resolve the above dependencies and dependents, if any.*").data
          = sepLit ++ (("*This is an automated message. Please resolve the above dependencies and dependents, if any.*").data) from by decide]
      simp only [List.append_assoc, List.cons_append, List.nil_append]
    rw [hbody]
    simp only [getDependentsTags, findDependentsBlock]
    rw [findBlockAux_skip _ _ (hA _), findBlockAux_at_phrase]
    have hC0 : noSepStart ('\n' :: (((p0 :: P2).map bulletLine).flatten))
        (sepLit ++ ((("*This is an automated message. Please resolve the above dependencies and dependents, if any.*").data)
          ++ (("\n<!-- DO NOT EDIT THIS COMMENT! IT WILL BREAK THE DEPENDENCY CHECKER. -->").data))) := by
      show noSepStart (['\n'] ++ (((p0 :: P2).map bulletLine).flatten)) _
      refine noSepStart_append _ _ _ ?_
        (noSepStart_bulletList (p0 :: P2) hP _ (sep_not_prefix_nl_nl _))
      intro x1 c x2 heq
      cases x1 with
      | nil =>
        simp only [List.nil_append] at heq
        obtain ⟨h1, h2⟩ := List.cons.inj heq
        rw [← h1, ← h2]
        simp only [List.nil_append, List.map_cons, List.flatten_cons, bulletLine_shape p0,
          List.cons_append]
        exact sep_not_prefix_dash_space _
      | cons a x1b =>
        exfalso
        have hlen := congrArg List.length heq
        simp only [List.length_cons, List.length_append, List.length_nil] at hlen
        omega
    have hscan : sepScanLen ('\n' :: ((((p0 :: P2).map bulletLine).flatten)
        ++ (sepLit ++ ((("*This is an automated message. Please resolve the above dependencies and dependents, if any.*").data)
          ++ (("\n<!-- DO NOT EDIT THIS COMMENT! IT WILL BREAK THE DEPENDENCY CHECKER. -->").data)))))
        = (((p0 :: P2).map bulletLine).flatten).length + 1 := by
      rw [show ('\n' :: ((((p0 :: P2).map bulletLine).flatten)
          ++ (sepLit ++ ((("*This is an automated message. Please resolve the above dependencies and dependents, if any.*").data)
            ++ (("\n<!-- DO NOT EDIT THIS COMMENT! IT WILL BREAK THE DEPENDENCY CHECKER. -->").data)))))
          = ('\n' :: (((p0 :: P2).map bulletLine).flatten))
            ++ (sepLit ++ ((("*This is an automated message. Please resolve the above dependencies and dependents, if any.*").data)
              ++ (("\n<!-- DO NOT EDIT THIS COMMENT! IT WILL BREAK THE DEPENDENCY CHECKER. -->").data))) from by simp]
      rw [sepScanLen_append _ _ hC0, sepScanLen_at_sep]
      simp [Nat.add_comm]
    rw [hscan, Option.getD_some, List.take_succ_cons, List.take_left]
    rw [show dependentsPhrase ++ '\n' :: (((p0 :: P2).map bulletLine).flatten)
        = (dependentsPhrase ++ ['\n']) ++ (((p0 :: P2).map bulletLine).flatten) from by simp]
    have hsc : genScan matchBullet ((dependentsPhrase ++ ['\n'])
        ++ (((p0 :: P2).map bulletLine).flatten))
        = (p0 :: P2).map (fun e => natChars e.number) := by
      show genScanFrom matchBullet none _ = _
      rw [bulletScan_skip _ _ _ (by decide) ?_ ?_]
      · exact bulletScan_bullets _ hP
      · simp only [List.map_cons, List.flatten_cons, bulletLine_shape p0, List.cons_append]
        simp
      · simp only [List.map_cons, List.flatten_cons, bulletLine_shape p0, List.cons_append]
        simp
    rw [hsc, List.map_map]
    have hmc : List.map ((fun ds => DependencyTag.mk ctx.owner ctx.repo (digitsVal ds))
          ∘ fun e => natChars e.number) (p0 :: P2)
        = List.map (fun e => DependencyTag.mk ctx.owner ctx.repo e.number) (p0 :: P2) :=
      List.map_congr_left (fun e _ => by
        simp only [Function.comp_apply, digitsVal_natChars])
    rw [hmc]
    exact dedupTags_nodup _ (tagKeys_nodup ctx _ hnum)


/-- Witness for **C4** at a concrete context, issue type, dependency and
dependent. -/
theorem c4_witness :
    getDependentsTags (RepoRef.mk ("o").data ("r").data)
      (createCommentBody pullRequestType [sampleDep] [sampleDependent])
      = [DependencyTag.mk ("o").data ("r").data 22] :=
  c4_round_trip (RepoRef.mk ("o").data ("r").data) pullRequestType
    [sampleDep] [sampleDependent] (Or.inl rfl) (by decide) (by decide) (by decide)

end PRDeps
